import Mathlib

/-!
Verification of the force-directed city-layout solver
(`src/utils/layoutEngine.ts`, `generateCityLayout`).

The TypeScript source is shallowly embedded below.  JavaScript numbers are
modelled as real numbers; the unseeded random source (`Math.random()`) is
modelled as an explicit stream of draws `ℕ → ℝ` consumed through a counter
that is threaded through the computation in program order; `Date.now()` is an
explicit parameter.  Mutation of the `nodes` array is modelled by explicit
state passing; `THREE.Vector3`'s in-place operations (`multiplyScalar`,
`add`, ...) are modelled by the value each expression holds after the call,
which in particular makes the double scaling of the stored velocity in the
integration step (damping and then the time step, both applied in place to
`node.velocity`) visible in `integrate` below.
-/

set_option autoImplicit false

/-- A stream of draws from the unseeded random source: draw number `k` of a
run is `rng k`.  Every call site consumes draws in program order through an
explicit counter. -/
abbrev Rng := ℕ → ℝ

/-- `THREE.Vector3`, with real components. -/
structure Vec3 where
  x : ℝ
  y : ℝ
  z : ℝ

noncomputable section

/-- Componentwise addition (`Vector3.add`). -/
def Vec3.add (a b : Vec3) : Vec3 := ⟨a.x + b.x, a.y + b.y, a.z + b.z⟩

/-- Componentwise subtraction (`Vector3.subVectors` / `sub`). -/
def Vec3.sub (a b : Vec3) : Vec3 := ⟨a.x - b.x, a.y - b.y, a.z - b.z⟩

/-- Scalar multiple (`Vector3.multiplyScalar`), as the value after the call. -/
def Vec3.smul (a : Vec3) (s : ℝ) : Vec3 := ⟨a.x * s, a.y * s, a.z * s⟩

/-- The vector with its `y` component overwritten (`diff.y = 0`). -/
def Vec3.withY (a : Vec3) (y : ℝ) : Vec3 := ⟨a.x, y, a.z⟩

/-- Squared euclidean length (`Vector3.lengthSq`). -/
def Vec3.lengthSq (a : Vec3) : ℝ := a.x * a.x + a.y * a.y + a.z * a.z

/-- Euclidean length (`Vector3.length`). -/
def Vec3.length (a : Vec3) : ℝ := Real.sqrt a.lengthSq

/-- `Vector3.normalize` divides by `length() || 1`, so the zero vector is
left unchanged. -/
def Vec3.normalize (a : Vec3) : Vec3 :=
  if a.length = 0 then a else a.smul a.length⁻¹

/-- The origin, `new THREE.Vector3(0, 0, 0)` / `new THREE.Vector3()`. -/
def Vec3.zero : Vec3 := ⟨0, 0, 0⟩

/-- The `'file' | 'folder'` union used by both node types. -/
inductive NodeType where
  | file
  | folder
deriving DecidableEq

/-- Input tree node (`interface FileNode`).  `children` is optional, and in
the source an absent field and an empty array both lead to no recursive
traversal, which the embedding reproduces. -/
inductive FileNode where
  | mk (name : String) (type : NodeType) (children : Option (List FileNode))
      (loc : Option ℕ) (content : Option String) (url : Option String)

def FileNode.name : FileNode → String
  | .mk n _ _ _ _ _ => n

def FileNode.type : FileNode → NodeType
  | .mk _ t _ _ _ _ => t

def FileNode.children : FileNode → Option (List FileNode)
  | .mk _ _ c _ _ _ => c

def FileNode.loc : FileNode → Option ℕ
  | .mk _ _ _ l _ _ => l

def FileNode.content : FileNode → Option String
  | .mk _ _ _ _ c _ => c

def FileNode.url : FileNode → Option String
  | .mk _ _ _ _ _ u => u

/-- Working record of the solver (`interface SimulationNode`). -/
structure SimulationNode where
  id : String
  type : NodeType
  position : Vec3
  velocity : Vec3
  radius : ℝ
  targetHeight : ℝ
  parentId : Option String
  childrenIds : List String
  codeSnippet : Option String
  loc : ℕ
  url : Option String

/-- Output record (`interface CityNode`); the tuple fields `position` and
`size` are modelled by `Vec3`. -/
structure CityNode where
  id : String
  position : Vec3
  size : Vec3
  type : NodeType
  codeSnippet : Option String
  parentId : Option String
  loc : ℕ
  lastModified : ℝ
  extension : String
  url : Option String

/-- The state mutated by `flatten` and the simulation loop: the `nodes`
array together with the number of random draws consumed so far. -/
abbrev SimSt := List SimulationNode × ℕ

/-- Id construction: `parentId ? parentId + "/" + node.name : node.name`.
JS tests `parentId` for truthiness, so the empty string behaves like the
absent parent. -/
def mkId (parentId : Option String) (name : String) : String :=
  match parentId with
  | some p => if p = "" then name else p ++ "/" ++ name
  | none => name

/-- `parent.childrenIds.push(id)` through the alias returned by
`nodes.find(n => n.id === parentId)`: append to the first record whose id
matches, leave the list unchanged when there is none. -/
def setChild (p cid : String) : List SimulationNode → List SimulationNode
  | [] => []
  | n :: ns =>
    if n.id = p then { n with childrenIds := n.childrenIds ++ [cid] } :: ns
    else n :: setChild p cid ns

/-- The initial placement of one `flatten` visit (source lines 63–73): the
origin, or the parent's current position plus a random lateral jitter when
`if (parentId)` holds (truthiness: the empty string counts as absent) and
the parent lookup succeeds (consuming two random draws exactly then).
Returns the position together with the advanced draw counter. -/
def initialPlacement (rng : Rng) (parentId : Option String) (st : SimSt) :
    Vec3 × ℕ :=
  match parentId with
  | some p =>
    if p = "" then (Vec3.zero, st.2)
    else
      match st.1.find? (fun n => n.id = p) with
      | some parentNode =>
        (parentNode.position.add
          ⟨(rng st.2 - 0.5) * 100, 0, (rng (st.2 + 1) - 0.5) * 100⟩,
         st.2 + 2)
      | none => (Vec3.zero, st.2)
  | none => (Vec3.zero, st.2)

/-- The non-recursive body of one `flatten` visit (source lines 50–94): id
and size/height derivation, the jittered initial placement, push of the new
record, then — only when `if (parentId)` holds, the empty string being
falsy — registration of the id in the parent record's `childrenIds`
through `nodes.find`. -/
def pushNode (rng : Rng) (node : FileNode) (parentId : Option String)
    (st : SimSt) : SimSt :=
  match node with
  | .mk name ty _ nloc content u =>
    let id := mkId parentId name
    let isFile := ty = NodeType.file
    let radius : ℝ := if isFile then 5 else 10
    let loc := nloc.getD 0
    let height : ℝ := if isFile then max 2 (min ((loc : ℝ) * 0.5) 100) else 1
    let pj : Vec3 × ℕ := initialPlacement rng parentId st
    let simNode : SimulationNode :=
      { id := id, type := ty, position := pj.1, velocity := Vec3.zero,
        radius := radius, targetHeight := height, parentId := parentId,
        childrenIds := [], codeSnippet := content, loc := loc, url := u }
    let nodes1 := st.1 ++ [simNode]
    match parentId with
    | some p => (if p = "" then nodes1 else setChild p id nodes1, pj.2)
    | none => (nodes1, pj.2)

/-- The record one `flatten` visit pushes, as a function of the state at the
visit; `pushNode` appends exactly this record. -/
def freshRecord (rng : Rng) (name : String) (ty : NodeType) (nloc : Option ℕ)
    (content u : Option String) (parentId : Option String) (st : SimSt) :
    SimulationNode :=
  { id := mkId parentId name, type := ty,
    position := (initialPlacement rng parentId st).1, velocity := Vec3.zero,
    radius := if ty = NodeType.file then 5 else 10,
    targetHeight :=
      if ty = NodeType.file then max 2 (min ((nloc.getD 0 : ℝ) * 0.5) 100)
      else 1,
    parentId := parentId, childrenIds := [], codeSnippet := content,
    loc := nloc.getD 0, url := u }

mutual

/-- The recursive `flatten` closure (source lines 46–99): cap check, the
per-node body `pushNode`, then recursion into the children. -/
def flattenNode (rng : Rng) (node : FileNode) (parentId : Option String)
    (st : SimSt) : SimSt :=
  if 400 ≤ st.1.length then st
  else
    match node with
    | .mk name ty ch nloc content u =>
      let st' := pushNode rng (.mk name ty ch nloc content u) parentId st
      match ch with
      | some cs => flattenChildren rng cs (mkId parentId name) st'
      | none => st'

/-- `node.children.forEach(child => flatten(child, id))`. -/
def flattenChildren (rng : Rng) (cs : List FileNode) (id : String)
    (st : SimSt) : SimSt :=
  match cs with
  | [] => st
  | c :: rest => flattenChildren rng rest id (flattenNode rng c (some id) st)

end

/-- `DAMPING = 0.9`. -/
def DAMPING : ℝ := 0.9

/-- `TIME_STEP = 0.1`. -/
def TIME_STEP : ℝ := 0.1

/-- The force accumulated for one record during one iteration (source lines
121–159): all-pairs repulsion with the random substitute direction for
near-degenerate separations, then attraction toward the parent when
`node.parentId` is truthy (the empty string is falsy) and found, or toward
the origin otherwise (`if (node.parentId)` else-branch).  Returns the
force together with the advanced draw counter. -/
def computeForce (pad rep att : ℝ) (rng : Rng) (nodes : List SimulationNode)
    (node : SimulationNode) (ctr : ℕ) : Vec3 × ℕ :=
  let rc :=
    nodes.foldl
      (fun (acc : Vec3 × ℕ) other =>
        if node.id = other.id then acc
        else
          let diff0 := (node.position.sub other.position).withY 0
          let distSq := diff0.lengthSq
          let dj : Vec3 × ℕ :=
            if distSq < 0.1 then
              ((Vec3.mk (rng acc.2 - 0.5) 0 (rng (acc.2 + 1) - 0.5)).normalize,
               acc.2 + 2)
            else (diff0, acc.2)
          let minDist := node.radius + other.radius + pad
          if distSq < minDist * minDist * 4 then
            (acc.1.add ((dj.1.normalize).smul (rep / (distSq + 0.1))), dj.2)
          else (acc.1, dj.2))
      (Vec3.zero, ctr)
  let f :=
    match node.parentId with
    | some p =>
      if p = "" then
        rc.1.add (((Vec3.zero.sub node.position).withY 0).smul att)
      else
        match nodes.find? (fun n => n.id = p) with
        | some parent =>
          rc.1.add (((parent.position.sub node.position).withY 0).smul att)
        | none => rc.1
    | none => rc.1.add (((Vec3.zero.sub node.position).withY 0).smul att)
  (f, rc.2)

/-- The first `forEach` of an iteration: each record's velocity is advanced
by its accumulated force scaled by the time step
(`node.velocity.add(force.multiplyScalar(TIME_STEP))`).  Forces read only
positions, which this phase never writes, so reading from the phase's
initial snapshot `all` is exact. -/
def velRun (pad rep att : ℝ) (rng : Rng) (all : List SimulationNode) :
    List SimulationNode → ℕ → List SimulationNode × ℕ
  | [], c => ([], c)
  | n :: ns, c =>
    let fc := computeForce pad rep att rng all n c
    let rest := velRun pad rep att rng all ns fc.2
    ({ n with velocity := n.velocity.add (fc.1.smul TIME_STEP) } :: rest.1,
     rest.2)

def velocityPhase (pad rep att : ℝ) (rng : Rng) (st : SimSt) : SimSt :=
  velRun pad rep att rng st.1 st.1 st.2

/-- The integration `forEach` (source lines 166–170):
`velocity.multiplyScalar(DAMPING)` scales the stored velocity in place, and
`position.add(velocity.multiplyScalar(TIME_STEP))` scales it in place a
second time before adding it to the position, so the record keeps
`velocity * DAMPING * TIME_STEP` and the position advances by exactly that
stored vector; finally `position.y = 0`. -/
def integrate (n : SimulationNode) : SimulationNode :=
  let v2 := (n.velocity.smul DAMPING).smul TIME_STEP
  { n with velocity := v2, position := (n.position.add v2).withY 0 }

/-- One ordered pair of the collision loop (source lines 175–189), acting on
the live list: positions read and written through indices, skipping pairs
with equal ids. -/
def collideAt (pad : ℝ) (ns : List SimulationNode) (i j : ℕ) :
    List SimulationNode :=
  match ns[i]?, ns[j]? with
  | some a, some b =>
    if a.id = b.id then ns
    else
      let diff := (a.position.sub b.position).withY 0
      let dist := diff.length
      let minDist := a.radius + b.radius + pad
      if dist < minDist then
        let correction := (diff.normalize).smul ((minDist - dist) * 0.5)
        (ns.set i { a with position := a.position.add correction }).set j
          { b with position := b.position.sub correction }
      else ns
  | _, _ => ns

/-- One full nested `forEach` sweep of the collision resolver. -/
def collisionPass (pad : ℝ) (ns : List SimulationNode) : List SimulationNode :=
  (List.range ns.length).foldl
    (fun acc i =>
      (List.range ns.length).foldl (fun acc2 j => collideAt pad acc2 i j) acc)
    ns

/-- One iteration of the outer simulation loop: force accumulation, then
integration, then the collision sweep run twice (`for (let k = 0; k < 2)`). -/
def simIterate (pad rep att : ℝ) (rng : Rng) (st : SimSt) : SimSt :=
  let st1 := velocityPhase pad rep att rng st
  let ns2 := st1.1.map integrate
  (collisionPass pad (collisionPass pad ns2), st1.2)

/-- `for (let i = 0; i < iterations; i++)`. -/
def simLoop (pad rep att : ℝ) (rng : Rng) : ℕ → SimSt → SimSt
  | 0, st => st
  | n + 1, st => simLoop pad rep att rng n (simIterate pad rep att rng st)

/-- Models JavaScript `s.split('.')` on the character list of `s`: a list of
the (possibly empty) maximal segments between dots; `split` always returns
at least one segment, in particular `[""]` for the empty string. -/
def splitDots : List Char → List (List Char)
  | [] => [[]]
  | c :: cs =>
    match splitDots cs with
    | [] => [[]]
    | seg :: rest => if c = '.' then [] :: seg :: rest else (c :: seg) :: rest

/-- `node.id.split('.').pop()`: the last segment. -/
def lastSegment (s : String) : List Char :=
  (splitDots s.toList).getLastD []

/-- The `extension` output field:
`node.type === 'file' ? (node.id.split('.').pop() || 'txt') : 'folder'`.
`pop()` on the result of `split` is falsy exactly when the last segment is
the empty string. -/
def extensionOf (ty : NodeType) (id : String) : String :=
  match ty with
  | .file => if lastSegment id = [] then "txt" else String.mk (lastSegment id)
  | .folder => "folder"

/-- One output record (source lines 195–206).  `lm` is the value of
`Date.now() - Math.random() * 1000*60*60*24*30` for this record;
`node.parentId || undefined` erases an empty-string parent id. -/
def cityOf (n : SimulationNode) (lm : ℝ) : CityNode :=
  { id := n.id
    position := ⟨n.position.x, n.targetHeight / 2, n.position.z⟩
    size := ⟨n.radius * 1.5, n.targetHeight, n.radius * 1.5⟩
    type := n.type
    codeSnippet := n.codeSnippet
    parentId :=
      match n.parentId with
      | some p => if p = "" then none else some p
      | none => none
    loc := n.loc
    lastModified := lm
    extension := extensionOf n.type n.id
    url := n.url }

/-- The final `nodes.map(...)`, consuming one random draw per record for the
mock `lastModified` timestamp. -/
def exportNodes (rng : Rng) (now : ℝ) :
    List SimulationNode → ℕ → List CityNode
  | [], _ => []
  | n :: ns, c =>
    cityOf n (now - rng c * (1000 * 60 * 60 * 24 * 30)) ::
      exportNodes rng now ns (c + 1)

/-- The working-record state after flattening and `iterations` iterations of
the simulation, with the force constants derived from the flattened node
count exactly as in the source (lines 109–117). -/
def layoutState (root : FileNode) (iterations : ℕ) (rng : Rng) : SimSt :=
  let st0 := flattenNode rng root none ([], 0)
  let spacingMultiplier := max 1 (Real.log st0.1.length * 0.5)
  simLoop (15 * spacingMultiplier) (2000 * spacingMultiplier)
    (0.01 / spacingMultiplier) rng iterations st0

/-- `generateCityLayout(root, iterations = 50)`; `rng` is the
`Math.random()` stream and `now` the value of `Date.now()` at export time. -/
def generateCityLayout (root : FileNode) (iterations : ℕ) (rng : Rng)
    (now : ℝ) : List CityNode :=
  exportNodes rng now (layoutState root iterations rng).1
    (layoutState root iterations rng).2

/-! ### Specification-side definitions

These follow the spec's description of the traversal (depth-first preorder,
children in input order, path-qualified ids, 400-record admission cap) and
are compared with the embedded source functions by the theorems below. -/

mutual

/-- Depth-first preorder list of derived ids of a (sub)tree, children in
input order. -/
def preorderIdsNode (parentId : Option String) (n : FileNode) : List String :=
  match n with
  | .mk name _ ch _ _ _ =>
    mkId parentId name ::
      (match ch with
       | some cs => preorderIdsChildren (mkId parentId name) cs
       | none => [])

def preorderIdsChildren (d : String) (cs : List FileNode) : List String :=
  match cs with
  | [] => []
  | c :: rest => preorderIdsNode (some d) c ++ preorderIdsChildren d rest

end

mutual

/-- Total number of nodes of the input tree. -/
def countNode : FileNode → ℕ
  | .mk _ _ ch _ _ _ =>
    1 + (match ch with
         | some cs => countChildren cs
         | none => 0)

def countChildren : List FileNode → ℕ
  | [] => 0
  | c :: rest => countNode c + countChildren rest

end

mutual

/-- The `(id, childrenIds)` adjacency sequence that the spec's contract
describes: records in depth-first preorder, a record admitted exactly when
fewer than 400 records exist at its visit (`i` counts records so far), and
each record's `childrenIds` listing exactly its admitted children's ids in
input order. -/
def specNode (parentId : Option String) (n : FileNode) (i : ℕ) :
    List (String × List String) × ℕ :=
  if 400 ≤ i then ([], i)
  else
    match n with
    | .mk name _ ch _ _ _ =>
      match ch with
      | none => ([(mkId parentId name, [])], i + 1)
      | some cs =>
        let r := specChildren (mkId parentId name) cs (i + 1)
        ((mkId parentId name, r.2.1) :: r.1, r.2.2)

/-- Records, admitted direct-child ids, and next record count for a child
list. -/
def specChildren (d : String) (cs : List FileNode) (i : ℕ) :
    List (String × List String) × List String × ℕ :=
  match cs with
  | [] => ([], [], i)
  | c :: rest =>
    let rc := specNode (some d) c i
    let rs := specChildren d rest rc.2
    (rc.1 ++ rs.1,
     (if 400 ≤ i then rs.2.1 else mkId (some d) c.name :: rs.2.1),
     rs.2.2)

end

/-- `setChild` at the level of `(id, childrenIds)` pairs. -/
def setChildPair (p cid : String) :
    List (String × List String) → List (String × List String)
  | [] => []
  | q :: qs =>
    if q.1 = p then (q.1, q.2 ++ [cid]) :: qs else q :: setChildPair p cid qs

/-- Append a whole batch of child ids to the first pair with id `p`. -/
def addKids (p : String) (ks : List String) :
    List (String × List String) → List (String × List String)
  | [] => []
  | q :: qs =>
    if q.1 = p then (q.1, q.2 ++ ks) :: qs else q :: addKids p ks qs

/-- The `(id, childrenIds)` projection of a working-record list: the
adjacency data the contract talks about. -/
def pairsOf (ns : List SimulationNode) : List (String × List String) :=
  ns.map (fun r => (r.id, r.childrenIds))

/-- The `(id, parentId)` projection of a working-record list. -/
def ipPairs (ns : List SimulationNode) : List (String × Option String) :=
  ns.map (fun r => (r.id, r.parentId))

/-- Registration of a fresh id in its parent's pair (the
`parent.childrenIds.push(id)` step), a no-op for the root and — by the
truthiness of `if (parentId)` — for an empty parent id. -/
def regPair (parentId : Option String) (id : String)
    (st : List (String × List String)) : List (String × List String) :=
  match parentId with
  | some p => if p = "" then st else setChildPair p id st
  | none => st

mutual

/-- The `flatten` recursion at the level of `(id, childrenIds)` pairs:
exactly what `flattenNode` does to the adjacency data, forgetting the
geometric fields. -/
def flatPairsNode (node : FileNode) (parentId : Option String)
    (st : List (String × List String)) : List (String × List String) :=
  if 400 ≤ st.length then st
  else
    match node with
    | .mk name _ ch _ _ _ =>
      let st2 := regPair parentId (mkId parentId name)
        (st ++ [(mkId parentId name, [])])
      match ch with
      | some cs => flatPairsChildren cs (mkId parentId name) st2
      | none => st2

def flatPairsChildren (cs : List FileNode) (d : String)
    (st : List (String × List String)) : List (String × List String) :=
  match cs with
  | [] => st
  | c :: rest => flatPairsChildren rest d (flatPairsNode c (some d) st)

end

/-- Every pair carrying a parent id is preceded, strictly earlier in the
sequence, by a pair whose id is that parent id. -/
def ParentsEarlier (l : List (String × Option String)) : Prop :=
  ∀ i, ∀ h : i < l.length, ∀ p, (l.get ⟨i, h⟩).2 = some p →
    p ∈ (l.take i).map Prod.fst

/-- Everything of a working record except the two simulation-mutable fields
`position` and `velocity`. -/
structure NodeShape where
  id : String
  type : NodeType
  radius : ℝ
  targetHeight : ℝ
  parentId : Option String
  childrenIds : List String
  codeSnippet : Option String
  loc : ℕ
  url : Option String

def shape (n : SimulationNode) : NodeShape :=
  ⟨n.id, n.type, n.radius, n.targetHeight, n.parentId, n.childrenIds,
   n.codeSnippet, n.loc, n.url⟩

/-- `setChild` at the level of `NodeShape`s. -/
def setChildShape (p cid : String) : List NodeShape → List NodeShape
  | [] => []
  | q :: qs =>
    if q.id = p then { q with childrenIds := q.childrenIds ++ [cid] } :: qs
    else q :: setChildShape p cid qs

/-- The shape of the record one `flatten` visit pushes. -/
def freshShape (node : FileNode) (parentId : Option String) : NodeShape :=
  match node with
  | .mk name ty _ nloc content u =>
    ⟨mkId parentId name, ty,
     if ty = NodeType.file then 5 else 10,
     if ty = NodeType.file then max 2 (min ((nloc.getD 0 : ℝ) * 0.5) 100)
     else 1,
     parentId, [], content, nloc.getD 0, u⟩

/-- Everything of an output record except the horizontal position
coordinates and the mock timestamp. -/
structure CityShape where
  id : String
  type : NodeType
  parentId : Option String
  size : Vec3
  loc : ℕ
  extension : String
  url : Option String
  codeSnippet : Option String
  posY : ℝ

def cityShape (c : CityNode) : CityShape :=
  ⟨c.id, c.type, c.parentId, c.size, c.loc, c.extension, c.url,
   c.codeSnippet, c.position.y⟩

/-- The record-size and height constants the spec asserts for every record:
radius 5 and the clamped height for files, radius 10 and height 1 for
folders. -/
def GoodShape (n : SimulationNode) : Prop :=
  (n.type = NodeType.file →
    n.radius = 5 ∧ n.targetHeight = max 2 (min ((n.loc : ℝ) * 0.5) 100)) ∧
  (n.type = NodeType.folder → n.radius = 10 ∧ n.targetHeight = 1)

/-- Horizontal (ground-plane) distance between two points. -/
def horizDist (p q : Vec3) : ℝ := ((p.sub q).withY 0).length

/-- The horizontal coordinates of a working record. -/
def posXZ (n : SimulationNode) : ℝ × ℝ := (n.position.x, n.position.z)

/-- The horizontal coordinates of an output record. -/
def cposXZ (c : CityNode) : ℝ × ℝ := (c.position.x, c.position.z)

/-- The trailing segment of a string after its last `.`, written directly
(spec side): the longest dot-free suffix. -/
def lastSegSpec (s : String) : String :=
  String.mk ((s.toList.reverse.takeWhile (fun c => c ≠ '.')).reverse)

/-! ### Concrete inputs used by witnesses and counterexamples -/

/-- A degenerate random stream: every draw is `0.5`, so every jitter offset
and every substituted repulsion direction is zero. -/
def rngHalf : Rng := fun _ => (0.5 : ℝ)

/-- A random stream whose draws are `0.6`. -/
def rngA : Rng := fun _ => (0.6 : ℝ)

/-- A random stream whose draws are `0.7`. -/
def rngB : Rng := fun _ => (0.7 : ℝ)

/-- Scenario A input: a root-only folder `repo`. -/
def treeSingle : FileNode := .mk "repo" .folder none none none none

/-- Scenario B input: root folder `repo` with one file child `a.ts` with
`loc = 100`. -/
def treeB : FileNode :=
  .mk "repo" .folder (some [.mk "a.ts" .file none (some 100) none none])
    none none none

/-- A single file whose name contains no dot. -/
def treeMakefile : FileNode := .mk "Makefile" .file none none none none

/-- A single file used as a witness input. -/
def treeFile : FileNode := .mk "a.ts" .file none (some 100) none none

/-- Root folder `r` with two children both named `a` (the second with a file
child `b`): the two sibling records share the derived id `r/a`. -/
def treeDup : FileNode :=
  .mk "r" .folder
    (some [.mk "a" .folder none none none none,
           .mk "a" .folder (some [.mk "b" .file none none none none])
             none none none])
    none none none

/-- Root folder `r` with one folder child `a`: a duplicate-free witness
input. -/
def treeW : FileNode :=
  .mk "r" .folder (some [.mk "a" .folder none none none none]) none none none

/-- A concrete working record: the root of scenario B at the origin. -/
def cn0 : SimulationNode :=
  { id := "repo", type := .folder, position := ⟨0, 0, 0⟩,
    velocity := ⟨0, 0, 0⟩, radius := 10, targetHeight := 1, parentId := none,
    childrenIds := ["repo/a.ts"], codeSnippet := none, loc := 0, url := none }

/-- A concrete working record: the file of scenario B placed 10 units from
the root along the x axis. -/
def cn1 : SimulationNode :=
  { id := "repo/a.ts", type := .file, position := ⟨10, 0, 0⟩,
    velocity := ⟨0, 0, 0⟩, radius := 5, targetHeight := 50,
    parentId := some "repo", childrenIds := [], codeSnippet := none,
    loc := 100, url := none }

/-- A concrete working record: the file of scenario B placed 100 units from
the root along the x axis (far enough that no repulsion applies). -/
def cn2 : SimulationNode :=
  { id := "repo/a.ts", type := .file, position := ⟨100, 0, 0⟩,
    velocity := ⟨0, 0, 0⟩, radius := 5, targetHeight := 50,
    parentId := some "repo", childrenIds := [], codeSnippet := none,
    loc := 100, url := none }

/-- The file record of scenario B as produced by the degenerate stream
`rngHalf`: the jitter is zero, so it coincides with the root. -/
def bn1 : SimulationNode :=
  { id := "repo/a.ts", type := .file, position := ⟨0, 0, 0⟩,
    velocity := ⟨0, 0, 0⟩, radius := 5, targetHeight := 50,
    parentId := some "repo", childrenIds := [], codeSnippet := none,
    loc := 100, url := none }

/-- The working record the flattener produces for `treeFile`. -/
def wRec : SimulationNode :=
  { id := "a.ts", type := .file, position := Vec3.zero,
    velocity := Vec3.zero, radius := 5, targetHeight := 50,
    parentId := none, childrenIds := [], codeSnippet := none,
    loc := 100, url := none }

/-- The output record of a zero-iteration run on `treeFile` with the
degenerate stream `rngHalf` and `now = 0`. -/
def wCity : CityNode :=
  cityOf wRec (0 - (0.5 : ℝ) * (1000 * 60 * 60 * 24 * 30))

/-- The working record the flattener produces for `treeMakefile`. -/
def mRec : SimulationNode :=
  { id := "Makefile", type := .file, position := Vec3.zero,
    velocity := Vec3.zero, radius := 5, targetHeight := 2,
    parentId := none, childrenIds := [], codeSnippet := none,
    loc := 0, url := none }

/-- The output record of a zero-iteration run on `treeMakefile` with the
degenerate stream `rngHalf` and `now = 0`. -/
def mCity : CityNode :=
  cityOf mRec (0 - (0.5 : ℝ) * (1000 * 60 * 60 * 24 * 30))

end

/-! ### Generic helper lemmas -/

theorem set_self_of_getElem {α : Type _} :
    ∀ (l : List α) (i : ℕ) (b : α), l[i]? = some b → l.set i b = l
  | [], i, b, h => by simp at h
  | a :: l, 0, b, h => by
    simp only [List.getElem?_cons_zero, Option.some.injEq] at h
    simp [h]
  | a :: l, i + 1, b, h => by
    simp only [List.getElem?_cons_succ] at h
    simp [set_self_of_getElem l i b h]

theorem foldl_preserve {α β : Type _} {P : α → Prop} {f : α → β → α}
    (h : ∀ a b, P a → P (f a b)) :
    ∀ (l : List β) (a : α), P a → P (l.foldl f a)
  | [], a, ha => ha
  | b :: l, a, ha => foldl_preserve h l (f a b) (h a b ha)

theorem setChild_map_id (p k : String) :
    ∀ l : List SimulationNode,
      (setChild p k l).map SimulationNode.id = l.map SimulationNode.id
  | [] => rfl
  | n :: ns => by
    by_cases h : n.id = p <;>
      simp [setChild, h, setChild_map_id p k ns]

theorem setChild_map_shape (p k : String) :
    ∀ l : List SimulationNode,
      (setChild p k l).map shape = setChildShape p k (l.map shape)
  | [] => rfl
  | n :: ns => by
    by_cases h : n.id = p <;>
      simp [setChild, setChildShape, shape, h, setChild_map_shape p k ns]

theorem setChild_append_last (p k : String) (a : SimulationNode)
    (ha : a.id ≠ p) :
    ∀ l : List SimulationNode,
      setChild p k (l ++ [a]) = setChild p k l ++ [a]
  | [] => by simp [setChild, ha]
  | n :: ns => by
    by_cases h : n.id = p <;>
      simp [setChild, h, setChild_append_last p k a ha ns]

theorem mkId_some_of_ne (p name : String) (hp : p ≠ "") :
    mkId (some p) name = p ++ "/" ++ name := by
  simp [mkId, hp]

theorem mkId_some_empty (name : String) : mkId (some "") name = name := by
  simp [mkId]

theorem mkId_some_ne (p name : String) (hp : p ≠ "") :
    mkId (some p) name ≠ p := by
  rw [mkId_some_of_ne p name hp]
  intro h
  have h2 := congrArg String.length h
  simp only [String.length_append] at h2
  have h3 : ("/" : String).length = 1 := rfl
  omega

theorem mkId_ne_empty (p name : String) (hp : p ≠ "") :
    mkId (some p) name ≠ "" := by
  rw [mkId_some_of_ne p name hp]
  intro h
  have h2 := congrArg String.length h
  simp only [String.length_append] at h2
  have h3 : ("/" : String).length = 1 := rfl
  have h4 : ("" : String).length = 0 := rfl
  omega

/-! ### The per-visit push -/

theorem pushNode_fst (rng : Rng) (name : String) (ty : NodeType)
    (ch : Option (List FileNode)) (nloc : Option ℕ)
    (content u : Option String) (pid : Option String) (st : SimSt) :
    (pushNode rng (.mk name ty ch nloc content u) pid st).1
      = (match pid with
         | some p =>
           if p = "" then st.1 else setChild p (mkId pid name) st.1
         | none => st.1)
        ++ [freshRecord rng name ty nloc content u pid st] := by
  cases pid with
  | none => rfl
  | some p =>
    show (if p = ""
        then st.1 ++ [freshRecord rng name ty nloc content u (some p) st]
        else setChild p (mkId (some p) name)
          (st.1 ++ [freshRecord rng name ty nloc content u (some p) st]))
      = (if p = "" then st.1
         else setChild p (mkId (some p) name) st.1)
        ++ [freshRecord rng name ty nloc content u (some p) st]
    by_cases hp : p = ""
    · rw [if_pos hp, if_pos hp]
    · rw [if_neg hp, if_neg hp,
        setChild_append_last p (mkId (some p) name) _
          (mkId_some_ne p name hp)]

theorem pushNode_snd (rng : Rng) (name : String) (ty : NodeType)
    (ch : Option (List FileNode)) (nloc : Option ℕ)
    (content u : Option String) (pid : Option String) (st : SimSt) :
    (pushNode rng (.mk name ty ch nloc content u) pid st).2
      = (initialPlacement rng pid st).2 := by
  cases pid <;> rfl

theorem pushNode_map_id (rng : Rng) (name : String) (ty : NodeType)
    (ch : Option (List FileNode)) (nloc : Option ℕ)
    (content u : Option String) (pid : Option String) (st : SimSt) :
    ((pushNode rng (.mk name ty ch nloc content u) pid st).1).map
        SimulationNode.id
      = st.1.map SimulationNode.id ++ [mkId pid name] := by
  rw [pushNode_fst]
  cases pid with
  | none => simp [freshRecord]
  | some p =>
    by_cases hp : p = "" <;> simp [hp, freshRecord, setChild_map_id]

theorem pushNode_map_shape (rng : Rng) (name : String) (ty : NodeType)
    (ch : Option (List FileNode)) (nloc : Option ℕ)
    (content u : Option String) (pid : Option String) (st : SimSt) :
    ((pushNode rng (.mk name ty ch nloc content u) pid st).1).map shape
      = (match pid with
         | some p =>
           if p = "" then st.1.map shape
           else setChildShape p (mkId pid name) (st.1.map shape)
         | none => st.1.map shape)
        ++ [freshShape (.mk name ty ch nloc content u) pid] := by
  rw [pushNode_fst]
  cases pid with
  | none => simp [freshRecord, shape, freshShape]
  | some p =>
    by_cases hp : p = "" <;>
      simp [hp, freshRecord, shape, freshShape, setChild_map_shape]

theorem pushNode_length (rng : Rng) (name : String) (ty : NodeType)
    (ch : Option (List FileNode)) (nloc : Option ℕ)
    (content u : Option String) (pid : Option String) (st : SimSt) :
    ((pushNode rng (.mk name ty ch nloc content u) pid st).1).length
      = st.1.length + 1 := by
  have h := congrArg List.length
    (pushNode_map_id rng name ty ch nloc content u pid st)
  simpa using h

/-! ### Flattening: ids, count and the 400-record cap (claim C1) -/

theorem flattenNode_cap (rng : Rng) (name : String) (ty : NodeType)
    (ch : Option (List FileNode)) (nloc : Option ℕ)
    (content u : Option String) (pid : Option String) (st : SimSt)
    (hcap : 400 ≤ st.1.length) :
    flattenNode rng (.mk name ty ch nloc content u) pid st = st := by
  rw [flattenNode.eq_def]
  simp [hcap]

theorem flattenNode_go_none (rng : Rng) (name : String) (ty : NodeType)
    (nloc : Option ℕ) (content u : Option String) (pid : Option String)
    (st : SimSt) (hcap : ¬ 400 ≤ st.1.length) :
    flattenNode rng (.mk name ty none nloc content u) pid st
      = pushNode rng (.mk name ty none nloc content u) pid st := by
  rw [flattenNode.eq_def]
  simp [hcap]

theorem flattenNode_go_some (rng : Rng) (name : String) (ty : NodeType)
    (cs : List FileNode) (nloc : Option ℕ) (content u : Option String)
    (pid : Option String) (st : SimSt) (hcap : ¬ 400 ≤ st.1.length) :
    flattenNode rng (.mk name ty (some cs) nloc content u) pid st
      = flattenChildren rng cs (mkId pid name)
          (pushNode rng (.mk name ty (some cs) nloc content u) pid st) := by
  rw [flattenNode.eq_def]
  simp [hcap]

theorem flattenChildren_nil (rng : Rng) (d : String) (st : SimSt) :
    flattenChildren rng [] d st = st := by
  rw [flattenChildren.eq_def]

theorem flattenChildren_cons (rng : Rng) (c : FileNode) (rest : List FileNode)
    (d : String) (st : SimSt) :
    flattenChildren rng (c :: rest) d st
      = flattenChildren rng rest d (flattenNode rng c (some d) st) := by
  rw [flattenChildren.eq_def]

mutual

theorem flattenNode_ids (rng : Rng) (n : FileNode) (pid : Option String)
    (st : SimSt) :
    ((flattenNode rng n pid st).1).map SimulationNode.id
      = st.1.map SimulationNode.id
        ++ (preorderIdsNode pid n).take (400 - st.1.length) := by
  match n with
  | .mk name ty ch nloc content u =>
    by_cases hcap : 400 ≤ st.1.length
    · have h0 : 400 - st.1.length = 0 := by omega
      rw [flattenNode_cap rng name ty ch nloc content u pid st hcap, h0]
      simp
    · obtain ⟨k, hk⟩ : ∃ k, 400 - st.1.length = k + 1 :=
        ⟨399 - st.1.length, by omega⟩
      have hk' : 400 - (st.1.length + 1) = k := by omega
      match ch with
      | none =>
        rw [flattenNode_go_none rng name ty nloc content u pid st hcap,
          pushNode_map_id]
        simp [preorderIdsNode, hk]
      | some cs =>
        rw [flattenNode_go_some rng name ty cs nloc content u pid st hcap,
          flattenChildren_ids rng cs (mkId pid name) _,
          pushNode_map_id, pushNode_length, hk', hk]
        simp [preorderIdsNode]

theorem flattenChildren_ids (rng : Rng) (cs : List FileNode) (d : String)
    (st : SimSt) :
    ((flattenChildren rng cs d st).1).map SimulationNode.id
      = st.1.map SimulationNode.id
        ++ (preorderIdsChildren d cs).take (400 - st.1.length) := by
  match cs with
  | [] => rw [flattenChildren_nil]; simp [preorderIdsChildren]
  | chd :: rest =>
    have h1 := flattenNode_ids rng chd (some d) st
    have hlen1 : (flattenNode rng chd (some d) st).1.length
        = st.1.length
          + min (400 - st.1.length) (preorderIdsNode (some d) chd).length := by
      have h := congrArg List.length h1
      simpa using h
    have h2 := flattenChildren_ids rng rest d (flattenNode rng chd (some d) st)
    rw [flattenChildren_cons, h2, h1, hlen1]
    have harith : 400 - (st.1.length
        + min (400 - st.1.length) (preorderIdsNode (some d) chd).length)
        = (400 - st.1.length) - (preorderIdsNode (some d) chd).length := by
      omega
    rw [harith, List.append_assoc, preorderIdsChildren,
      List.take_append_eq_append_take]

end

/-! ### The simulation phases only write `position` and `velocity` -/

theorem mapSet {α β : Type _} (f : α → β) :
    ∀ (l : List α) (i : ℕ) (a : α),
      (l.set i a).map f = (l.map f).set i (f a)
  | [], _, _ => rfl
  | x :: l, 0, a => rfl
  | x :: l, i + 1, a => by simp [mapSet f l i a]

theorem shape_velocity_update (n : SimulationNode) (v : Vec3) :
    shape { n with velocity := v } = shape n := rfl

theorem shape_position_update (n : SimulationNode) (p : Vec3) :
    shape { n with position := p } = shape n := rfl

theorem shape_integrate (n : SimulationNode) : shape (integrate n) = shape n :=
  rfl

theorem velRun_map_shape (pad rep att : ℝ) (rng : Rng)
    (all : List SimulationNode) :
    ∀ (ns : List SimulationNode) (c : ℕ),
      ((velRun pad rep att rng all ns c).1).map shape = ns.map shape
  | [], _ => rfl
  | n :: ns, c => by
    simp [velRun, shape_velocity_update,
      velRun_map_shape pad rep att rng all ns]

theorem collideAt_map_shape (pad : ℝ) (ns : List SimulationNode) (i j : ℕ) :
    (collideAt pad ns i j).map shape = ns.map shape := by
  unfold collideAt
  cases hi : ns[i]? with
  | none => rfl
  | some a =>
    cases hj : ns[j]? with
    | none => rfl
    | some b =>
      by_cases hab : a.id = b.id
      · simp [hab]
      · simp only [hab, if_false]
        split
        · have h1 : (ns.map shape)[i]? = some (shape a) := by
            rw [List.getElem?_map, hi]; rfl
          have h2 : (ns.map shape)[j]? = some (shape b) := by
            rw [List.getElem?_map, hj]; rfl
          rw [mapSet, mapSet]
          simp only [shape_position_update]
          rw [set_self_of_getElem _ _ _ h1, set_self_of_getElem _ _ _ h2]
        · rfl

theorem collisionPass_map_shape (pad : ℝ) (ns : List SimulationNode) :
    (collisionPass pad ns).map shape = ns.map shape := by
  unfold collisionPass
  refine foldl_preserve (P := fun acc : List SimulationNode =>
    acc.map shape = ns.map shape) ?_ _ ns rfl
  intro acc i hacc
  refine foldl_preserve (P := fun acc2 : List SimulationNode =>
    acc2.map shape = ns.map shape) ?_ _ acc hacc
  intro acc2 j hacc2
  rw [collideAt_map_shape, hacc2]

theorem simIterate_map_shape (pad rep att : ℝ) (rng : Rng) (st : SimSt) :
    ((simIterate pad rep att rng st).1).map shape = st.1.map shape := by
  unfold simIterate
  rw [collisionPass_map_shape, collisionPass_map_shape, List.map_map]
  have h1 : shape ∘ integrate = shape := by
    funext n
    exact shape_integrate n
  rw [h1]
  exact velRun_map_shape pad rep att rng st.1 st.1 st.2

theorem simLoop_map_shape (pad rep att : ℝ) (rng : Rng) :
    ∀ (k : ℕ) (st : SimSt),
      ((simLoop pad rep att rng k st).1).map shape = st.1.map shape
  | 0, st => rfl
  | k + 1, st => by
    rw [simLoop, simLoop_map_shape pad rep att rng k, simIterate_map_shape]

theorem map_proj_of_map_shape {β : Type _} (f : NodeShape → β)
    (g : SimulationNode → β) (hfg : ∀ n, f (shape n) = g n)
    {l1 l2 : List SimulationNode} (h : l1.map shape = l2.map shape) :
    l1.map g = l2.map g := by
  have h2 : ∀ l : List SimulationNode, l.map g = (l.map shape).map f := by
    intro l
    rw [List.map_map]
    exact List.map_congr_left fun n _ => (hfg n).symm
  rw [h2, h2, h]

mutual

theorem preorderIdsNode_length (pid : Option String) (n : FileNode) :
    (preorderIdsNode pid n).length = countNode n := by
  match n with
  | .mk name ty ch nloc content u =>
    match ch with
    | none => simp [preorderIdsNode, countNode]
    | some cs =>
      simp [preorderIdsNode, countNode,
        preorderIdsChildren_length (mkId pid name) cs]
      omega

theorem preorderIdsChildren_length (d : String) (cs : List FileNode) :
    (preorderIdsChildren d cs).length = countChildren cs := by
  match cs with
  | [] => simp [preorderIdsChildren, countChildren]
  | c :: rest =>
    simp [preorderIdsChildren, countChildren, preorderIdsNode_length,
      preorderIdsChildren_length d rest]

end

/-! ### Export: per-record correspondence -/

theorem exportNodes_map_id (rng : Rng) (now : ℝ) :
    ∀ (ns : List SimulationNode) (c : ℕ),
      (exportNodes rng now ns c).map CityNode.id = ns.map SimulationNode.id
  | [], _ => rfl
  | n :: ns, c => by
    simp [exportNodes, cityOf, exportNodes_map_id rng now ns]

theorem exportNodes_length (rng : Rng) (now : ℝ) (ns : List SimulationNode)
    (c : ℕ) :
    (exportNodes rng now ns c).length = ns.length := by
  have h := congrArg List.length (exportNodes_map_id rng now ns c)
  simpa using h

theorem layoutState_map_id (root : FileNode) (iters : ℕ) (rng : Rng) :
    ((layoutState root iters rng).1).map SimulationNode.id
      = (preorderIdsNode none root).take 400 := by
  have hpres := map_proj_of_map_shape NodeShape.id SimulationNode.id
    (fun n => rfl)
    (simLoop_map_shape
      (15 * max 1 (Real.log ((flattenNode rng root none ([], 0)).1.length) * 0.5))
      (2000 * max 1 (Real.log ((flattenNode rng root none ([], 0)).1.length) * 0.5))
      (0.01 / max 1 (Real.log ((flattenNode rng root none ([], 0)).1.length) * 0.5))
      rng iters (flattenNode rng root none ([], 0)))
  show ((simLoop _ _ _ rng iters (flattenNode rng root none ([], 0))).1).map
      SimulationNode.id = _
  rw [hpres, flattenNode_ids]
  simp

/-- C1: for every input tree, `generateCityLayout` produces exactly
`min(totalNodes, 400)` records, and the output id sequence is exactly the
first `min(totalNodes, 400)` ids of depth-first preorder traversal
(children in input order), in traversal order — so once the 400-record cap
is reached, no record is produced for any later-visited node. -/
theorem c1_output_length_and_ids (root : FileNode) (iters : ℕ) (rng : Rng)
    (now : ℝ) :
    (generateCityLayout root iters rng now).length = min (countNode root) 400
      ∧ (generateCityLayout root iters rng now).map CityNode.id
          = (preorderIdsNode none root).take 400 := by
  have hids : (generateCityLayout root iters rng now).map CityNode.id
      = (preorderIdsNode none root).take 400 := by
    unfold generateCityLayout
    rw [exportNodes_map_id, layoutState_map_id]
  refine ⟨?_, hids⟩
  have hlen := congrArg List.length hids
  simpa [preorderIdsNode_length, Nat.min_comm] using hlen

/-! ### Run-to-run invariance of everything but positions and timestamps
(claim C10) -/

mutual

theorem flattenNode_shape_det (rng1 rng2 : Rng) (n : FileNode)
    (pid : Option String) (st1 st2 : SimSt)
    (h : st1.1.map shape = st2.1.map shape) :
    ((flattenNode rng1 n pid st1).1).map shape
      = ((flattenNode rng2 n pid st2).1).map shape := by
  match n with
  | .mk name ty ch nloc content u =>
    have hlen : st1.1.length = st2.1.length := by
      have := congrArg List.length h
      simpa using this
    by_cases hcap : 400 ≤ st1.1.length
    · rw [flattenNode_cap rng1 name ty ch nloc content u pid st1 hcap,
        flattenNode_cap rng2 name ty ch nloc content u pid st2 (hlen ▸ hcap)]
      exact h
    · have hcap2 : ¬ 400 ≤ st2.1.length := fun hx => hcap (by omega)
      match ch with
      | none =>
        rw [flattenNode_go_none rng1 name ty nloc content u pid st1 hcap,
          flattenNode_go_none rng2 name ty nloc content u pid st2 hcap2,
          pushNode_map_shape, pushNode_map_shape, h]
      | some cs =>
        rw [flattenNode_go_some rng1 name ty cs nloc content u pid st1 hcap,
          flattenNode_go_some rng2 name ty cs nloc content u pid st2 hcap2]
        apply flattenChildren_shape_det
        rw [pushNode_map_shape, pushNode_map_shape, h]

theorem flattenChildren_shape_det (rng1 rng2 : Rng) (cs : List FileNode)
    (d : String) (st1 st2 : SimSt)
    (h : st1.1.map shape = st2.1.map shape) :
    ((flattenChildren rng1 cs d st1).1).map shape
      = ((flattenChildren rng2 cs d st2).1).map shape := by
  match cs with
  | [] => rw [flattenChildren_nil, flattenChildren_nil]; exact h
  | c :: rest =>
    rw [flattenChildren_cons, flattenChildren_cons]
    exact flattenChildren_shape_det rng1 rng2 rest d _ _
      (flattenNode_shape_det rng1 rng2 c (some d) st1 st2 h)

end

theorem cityShape_cityOf (n1 n2 : SimulationNode) (lm1 lm2 : ℝ)
    (h : shape n1 = shape n2) :
    cityShape (cityOf n1 lm1) = cityShape (cityOf n2 lm2) := by
  have h1 : n1.id = n2.id := congrArg NodeShape.id h
  have h2 : n1.type = n2.type := congrArg NodeShape.type h
  have h3 : n1.radius = n2.radius := congrArg NodeShape.radius h
  have h4 : n1.targetHeight = n2.targetHeight :=
    congrArg NodeShape.targetHeight h
  have h5 : n1.parentId = n2.parentId := congrArg NodeShape.parentId h
  have h6 : n1.codeSnippet = n2.codeSnippet :=
    congrArg NodeShape.codeSnippet h
  have h7 : n1.loc = n2.loc := congrArg NodeShape.loc h
  have h8 : n1.url = n2.url := congrArg NodeShape.url h
  simp [cityShape, cityOf, h1, h2, h3, h4, h5, h6, h7, h8]

theorem exportNodes_cityShape (rng1 rng2 : Rng) (now1 now2 : ℝ) :
    ∀ (ns1 ns2 : List SimulationNode) (c1 c2 : ℕ),
      ns1.map shape = ns2.map shape →
      (exportNodes rng1 now1 ns1 c1).map cityShape
        = (exportNodes rng2 now2 ns2 c2).map cityShape
  | [], [], _, _, _ => rfl
  | [], n :: ns, _, _, h => by simp at h
  | n :: ns, [], _, _, h => by simp at h
  | n1 :: ns1, n2 :: ns2, c1, c2, h => by
    simp only [List.map_cons, List.cons.injEq] at h
    simp only [exportNodes, List.map_cons]
    rw [cityShape_cityOf n1 n2 _ _ h.1,
      exportNodes_cityShape rng1 rng2 now1 now2 ns1 ns2 (c1 + 1) (c2 + 1) h.2]

theorem layoutState_shape_det (root : FileNode) (iters : ℕ)
    (rng1 rng2 : Rng) :
    ((layoutState root iters rng1).1).map shape
      = ((layoutState root iters rng2).1).map shape := by
  have hflat := flattenNode_shape_det rng1 rng2 root none ([], 0) ([], 0) rfl
  show ((simLoop _ _ _ rng1 iters (flattenNode rng1 root none ([], 0))).1).map
      shape = ((simLoop _ _ _ rng2 iters
        (flattenNode rng2 root none ([], 0))).1).map shape
  rw [simLoop_map_shape, simLoop_map_shape, hflat]

/-- C10: two runs of `generateCityLayout` on the same input tree with the
same iteration count, with independent (unseeded) random draws and
timestamps, produce outputs of identical length that agree, index by index,
on id, type, parentId, size, loc, extension, url, the passthrough snippet,
and the vertical position coordinate — so only the horizontal position
coordinates and `lastModified` can differ between the two runs. -/
theorem c10_run_invariance (root : FileNode) (iters : ℕ) (rng1 rng2 : Rng)
    (now1 now2 : ℝ) :
    (generateCityLayout root iters rng1 now1).length
        = (generateCityLayout root iters rng2 now2).length
      ∧ (generateCityLayout root iters rng1 now1).map cityShape
          = (generateCityLayout root iters rng2 now2).map cityShape := by
  have hshape : (generateCityLayout root iters rng1 now1).map cityShape
      = (generateCityLayout root iters rng2 now2).map cityShape := by
    unfold generateCityLayout
    exact exportNodes_cityShape rng1 rng2 now1 now2 _ _ _ _
      (layoutState_shape_det root iters rng1 rng2)
  refine ⟨?_, hshape⟩
  have hlen := congrArg List.length hshape
  simpa using hlen

/-! ### Radius and target height invariants (claims C4, C5) -/

theorem mem_of_getElemQ {α : Type _} :
    ∀ (l : List α) (i : ℕ) (a : α), l[i]? = some a → a ∈ l
  | [], _, _, h => by simp at h
  | x :: l, 0, a, h => by
    simp only [List.getElem?_cons_zero, Option.some.injEq] at h
    exact h ▸ List.mem_cons_self x l
  | x :: l, i + 1, a, h => by
    simp only [List.getElem?_cons_succ] at h
    exact List.mem_cons_of_mem x (mem_of_getElemQ l i a h)

theorem goodShape_of_shape_eq {n1 n2 : SimulationNode}
    (h : shape n1 = shape n2) (hg : GoodShape n1) : GoodShape n2 := by
  have h2 : n1.type = n2.type := congrArg NodeShape.type h
  have h3 : n1.radius = n2.radius := congrArg NodeShape.radius h
  have h4 : n1.targetHeight = n2.targetHeight :=
    congrArg NodeShape.targetHeight h
  have h7 : n1.loc = n2.loc := congrArg NodeShape.loc h
  unfold GoodShape at hg ⊢
  rw [← h2, ← h3, ← h4, ← h7]
  exact hg

theorem good_transfer :
    ∀ (l1 l2 : List SimulationNode), l1.map shape = l2.map shape →
      (∀ m ∈ l1, GoodShape m) → ∀ m ∈ l2, GoodShape m
  | [], [], _, _ => by simp
  | [], n :: ns, h, _ => by simp at h
  | n :: ns, [], h, _ => by simp at h
  | n1 :: ns1, n2 :: ns2, h, hg => by
    simp only [List.map_cons, List.cons.injEq] at h
    intro m hm
    rcases List.mem_cons.mp hm with rfl | hm
    · exact goodShape_of_shape_eq h.1 (hg n1 (List.mem_cons_self n1 ns1))
    · exact good_transfer ns1 ns2 h.2
        (fun m' hm' => hg m' (List.mem_cons_of_mem n1 hm')) m hm

theorem setChild_good (p k : String) :
    ∀ (l : List SimulationNode), (∀ m ∈ l, GoodShape m) →
      ∀ m ∈ setChild p k l, GoodShape m
  | [], _, m, hm => by simp [setChild] at hm
  | n :: ns, h, m, hm => by
    by_cases hn : n.id = p
    · simp only [setChild, hn, if_true] at hm
      rcases List.mem_cons.mp hm with rfl | hm
      · exact h n (List.mem_cons_self n ns)
      · exact h m (List.mem_cons_of_mem n hm)
    · simp only [setChild, hn, if_false] at hm
      rcases List.mem_cons.mp hm with rfl | hm
      · exact h m (List.mem_cons_self m ns)
      · exact setChild_good p k ns
          (fun m' hm' => h m' (List.mem_cons_of_mem n hm')) m hm

theorem freshRecord_good (rng : Rng) (name : String) (ty : NodeType)
    (nloc : Option ℕ) (content u : Option String) (pid : Option String)
    (st : SimSt) :
    GoodShape (freshRecord rng name ty nloc content u pid st) := by
  constructor
  · intro hf
    simp [freshRecord] at hf ⊢
    simp [hf]
  · intro hf
    simp [freshRecord] at hf ⊢
    simp [hf]

theorem pushNode_good (rng : Rng) (name : String) (ty : NodeType)
    (ch : Option (List FileNode)) (nloc : Option ℕ)
    (content u : Option String) (pid : Option String) (st : SimSt)
    (h : ∀ m ∈ st.1, GoodShape m) :
    ∀ m ∈ (pushNode rng (.mk name ty ch nloc content u) pid st).1,
      GoodShape m := by
  rw [pushNode_fst]
  intro m hm
  rcases List.mem_append.mp hm with hm | hm
  · cases pid with
    | none => exact h m hm
    | some p =>
      replace hm : m ∈ (if p = "" then st.1
          else setChild p (mkId (some p) name) st.1) := hm
      by_cases hp : p = ""
      · rw [if_pos hp] at hm
        exact h m hm
      · rw [if_neg hp] at hm
        exact setChild_good p _ st.1 h m hm
  · rcases List.mem_singleton.mp hm with rfl
    exact freshRecord_good rng name ty nloc content u pid st

mutual

theorem flattenNode_good (rng : Rng) (n : FileNode) (pid : Option String)
    (st : SimSt) (h : ∀ m ∈ st.1, GoodShape m) :
    ∀ m ∈ (flattenNode rng n pid st).1, GoodShape m := by
  match n with
  | .mk name ty ch nloc content u =>
    by_cases hcap : 400 ≤ st.1.length
    · rw [flattenNode_cap rng name ty ch nloc content u pid st hcap]
      exact h
    · match ch with
      | none =>
        rw [flattenNode_go_none rng name ty nloc content u pid st hcap]
        exact pushNode_good rng name ty none nloc content u pid st h
      | some cs =>
        rw [flattenNode_go_some rng name ty cs nloc content u pid st hcap]
        exact flattenChildren_good rng cs (mkId pid name) _
          (pushNode_good rng name ty (some cs) nloc content u pid st h)

theorem flattenChildren_good (rng : Rng) (cs : List FileNode) (d : String)
    (st : SimSt) (h : ∀ m ∈ st.1, GoodShape m) :
    ∀ m ∈ (flattenChildren rng cs d st).1, GoodShape m := by
  match cs with
  | [] => rw [flattenChildren_nil]; exact h
  | c :: rest =>
    rw [flattenChildren_cons]
    exact flattenChildren_good rng rest d _
      (flattenNode_good rng c (some d) st h)

end

theorem layoutState_shape_flatten (root : FileNode) (iters : ℕ) (rng : Rng) :
    ((layoutState root iters rng).1).map shape
      = ((flattenNode rng root none ([], 0)).1).map shape := by
  show ((simLoop _ _ _ rng iters (flattenNode rng root none ([], 0))).1).map
      shape = _
  rw [simLoop_map_shape]

theorem layoutState_good (root : FileNode) (iters : ℕ) (rng : Rng) :
    ∀ m ∈ (layoutState root iters rng).1, GoodShape m :=
  good_transfer _ _ (layoutState_shape_flatten root iters rng).symm
    (flattenNode_good rng root none ([], 0) (by simp))

/-- C4: every file record's `targetHeight` is `clamp(loc * 0.5, 2, 100)`
(with `loc` taken as 0 when absent and carried verbatim into the record),
every folder record's `targetHeight` is 1, and the whole `targetHeight`
sequence is unchanged by the simulation for every iteration count. -/
theorem c4_targetHeight (root : FileNode) (iters : ℕ) (rng : Rng) (i : ℕ)
    (n : SimulationNode)
    (hn : (layoutState root iters rng).1[i]? = some n) :
    (n.type = NodeType.file →
        n.targetHeight = max 2 (min ((n.loc : ℝ) * 0.5) 100))
      ∧ (n.type = NodeType.folder → n.targetHeight = 1)
      ∧ ((layoutState root iters rng).1).map SimulationNode.targetHeight
          = ((layoutState root 0 rng).1).map SimulationNode.targetHeight := by
  have hg := layoutState_good root iters rng n (mem_of_getElemQ _ i n hn)
  refine ⟨fun hf => (hg.1 hf).2, fun hf => (hg.2 hf).2, ?_⟩
  exact map_proj_of_map_shape NodeShape.targetHeight
    SimulationNode.targetHeight (fun _ => rfl)
    ((layoutState_shape_flatten root iters rng).trans
      (layoutState_shape_flatten root 0 rng).symm)

theorem exportNodes_getElem (rng : Rng) (now : ℝ) :
    ∀ (ns : List SimulationNode) (c i : ℕ),
      (exportNodes rng now ns c)[i]?
        = (ns[i]?).map
            (fun n =>
              cityOf n (now - rng (c + i) * (1000 * 60 * 60 * 24 * 30)))
  | [], _, _ => by simp [exportNodes]
  | n :: ns, c, 0 => by simp [exportNodes]
  | n :: ns, c, i + 1 => by
    have h := exportNodes_getElem rng now ns (c + 1) i
    have harith : c + 1 + i = c + (i + 1) := by omega
    rw [harith] at h
    simp only [exportNodes, List.getElem?_cons_succ, h]

/-- C5: every output record's position is `(x_final, targetHeight / 2,
z_final)` and its size is `(radius * 1.5, targetHeight, radius * 1.5)`,
where the radius is exactly 5 for files and 10 for folders, so the
horizontal footprint components are 7.5 for every file record and 15 for
every folder record. -/
theorem c5_position_size (root : FileNode) (iters : ℕ) (rng : Rng) (now : ℝ)
    (i : ℕ) (c : CityNode) (n : SimulationNode)
    (hc : (generateCityLayout root iters rng now)[i]? = some c)
    (hn : (layoutState root iters rng).1[i]? = some n) :
    c.position = ⟨n.position.x, n.targetHeight / 2, n.position.z⟩
      ∧ c.size = ⟨n.radius * 1.5, n.targetHeight, n.radius * 1.5⟩
      ∧ (n.type = NodeType.file → n.radius = 5)
      ∧ (n.type = NodeType.folder → n.radius = 10)
      ∧ (c.type = NodeType.file → c.size.x = 7.5 ∧ c.size.z = 7.5)
      ∧ (c.type = NodeType.folder → c.size.x = 15 ∧ c.size.z = 15) := by
  have hg := layoutState_good root iters rng n (mem_of_getElemQ _ i n hn)
  have hgen : (generateCityLayout root iters rng now)[i]?
      = some (cityOf n
          (now - rng ((layoutState root iters rng).2 + i)
            * (1000 * 60 * 60 * 24 * 30))) := by
    unfold generateCityLayout
    rw [exportNodes_getElem, hn]
    rfl
  have hceq : c = cityOf n
      (now - rng ((layoutState root iters rng).2 + i)
        * (1000 * 60 * 60 * 24 * 30)) :=
    Option.some.inj (hc.symm.trans hgen)
  subst hceq
  refine ⟨rfl, rfl, fun hf => (hg.1 hf).1, fun hf => (hg.2 hf).1, ?_, ?_⟩
  · intro hf
    have hf' : n.type = NodeType.file := hf
    have hr := (hg.1 hf').1
    simp [cityOf, hr]
    norm_num
  · intro hf
    have hf' : n.type = NodeType.folder := hf
    have hr := (hg.2 hf').1
    simp [cityOf, hr]
    norm_num

theorem layoutState_zero (root : FileNode) (rng : Rng) :
    layoutState root 0 rng = flattenNode rng root none ([], 0) := by
  simp only [layoutState, simLoop]

theorem treeFile_state (rng : Rng) :
    (layoutState treeFile 0 rng).1 = [wRec] := by
  rw [layoutState_zero]
  show (flattenNode rng (.mk "a.ts" .file none (some 100) none none)
    none ([], 0)).1 = _
  rw [flattenNode_go_none rng "a.ts" .file (some 100) none none none ([], 0)
    (by simp), pushNode_fst]
  simp [freshRecord, initialPlacement, mkId, wRec]
  norm_num

theorem c4_targetHeight_witness :
    (layoutState treeFile 0 rngHalf).1[0]? = some wRec
      ∧ ((wRec.type = NodeType.file →
            wRec.targetHeight = max 2 (min ((wRec.loc : ℝ) * 0.5) 100))
          ∧ (wRec.type = NodeType.folder → wRec.targetHeight = 1)
          ∧ ((layoutState treeFile 0 rngHalf).1).map
              SimulationNode.targetHeight
            = ((layoutState treeFile 0 rngHalf).1).map
                SimulationNode.targetHeight) := by
  have hyp : (layoutState treeFile 0 rngHalf).1[0]? = some wRec := by
    rw [treeFile_state]
    rfl
  exact ⟨hyp, c4_targetHeight treeFile 0 rngHalf 0 wRec hyp⟩

theorem c5_position_size_witness :
    (generateCityLayout treeFile 0 rngHalf 0)[0]? = some wCity
      ∧ (layoutState treeFile 0 rngHalf).1[0]? = some wRec
      ∧ (wCity.position
            = ⟨wRec.position.x, wRec.targetHeight / 2, wRec.position.z⟩
          ∧ wCity.size = ⟨wRec.radius * 1.5, wRec.targetHeight,
              wRec.radius * 1.5⟩
          ∧ (wRec.type = NodeType.file → wRec.radius = 5)
          ∧ (wRec.type = NodeType.folder → wRec.radius = 10)
          ∧ (wCity.type = NodeType.file →
              wCity.size.x = 7.5 ∧ wCity.size.z = 7.5)
          ∧ (wCity.type = NodeType.folder →
              wCity.size.x = 15 ∧ wCity.size.z = 15)) := by
  have hn : (layoutState treeFile 0 rngHalf).1[0]? = some wRec := by
    rw [treeFile_state]
    rfl
  have hc : (generateCityLayout treeFile 0 rngHalf 0)[0]? = some wCity := by
    unfold generateCityLayout
    rw [exportNodes_getElem, treeFile_state]
    simp [rngHalf, wCity]
  exact ⟨hc, hn, c5_position_size treeFile 0 rngHalf 0 0 wCity wRec hc hn⟩

/-! ### The `extension` field (claim C3) -/

theorem splitDots_ne_nil : ∀ l : List Char, splitDots l ≠ []
  | [] => by simp [splitDots]
  | c :: cs => by
    have h := splitDots_ne_nil cs
    match hs : splitDots cs with
    | [] => exact absurd hs h
    | seg :: rest => by_cases hc : c = '.' <;> simp [splitDots, hs, hc]

theorem splitDots_nodot :
    ∀ l : List Char, (∀ c ∈ l, c ≠ '.') → splitDots l = [l]
  | [], _ => rfl
  | c :: cs, h => by
    have hcs := splitDots_nodot cs fun x hx => h x (List.mem_cons_of_mem c hx)
    have hc : ¬ c = '.' := h c (List.mem_cons_self c cs)
    simp [splitDots, hcs, hc]

theorem splitDots_single_nodot :
    ∀ (l : List Char) (seg : List Char), splitDots l = [seg] →
      ∀ c ∈ l, c ≠ '.'
  | [], _, _ => by simp
  | x :: cs, seg, h => by
    match hs : splitDots cs with
    | [] => exact absurd hs (splitDots_ne_nil cs)
    | s :: r =>
      by_cases hx : x = '.'
      · rw [splitDots, hs] at h
        simp [hx] at h
      · rw [splitDots, hs] at h
        simp only [hx, if_false] at h
        have hr : r = [] := (List.cons.injEq _ _ _ _).mp h |>.2.symm ▸ rfl
        subst hr
        intro c hc
        rcases List.mem_cons.mp hc with rfl | hc
        · exact hx
        · exact splitDots_single_nodot cs s hs c hc

theorem takeWhile_append_all {α : Type _} (P : α → Bool) :
    ∀ (xs ys : List α), (∀ x ∈ xs, P x = true) →
      List.takeWhile P (xs ++ ys) = xs ++ List.takeWhile P ys
  | [], ys, _ => rfl
  | x :: xs, ys, h => by
    have hx := h x (List.mem_cons_self x xs)
    simp [List.takeWhile, hx,
      takeWhile_append_all P xs ys fun a ha => h a (List.mem_cons_of_mem x ha)]

theorem takeWhile_append_stop {α : Type _} (P : α → Bool) :
    ∀ (xs ys : List α), ¬ (∀ x ∈ xs, P x = true) →
      List.takeWhile P (xs ++ ys) = List.takeWhile P xs
  | [], ys, h => absurd (by simp) h
  | x :: xs, ys, h => by
    by_cases hx : P x = true
    · have h' : ¬ (∀ a ∈ xs, P a = true) := by
        intro hall
        exact h fun a ha => by
          rcases List.mem_cons.mp ha with rfl | ha
          · exact hx
          · exact hall a ha
      simp [List.takeWhile, hx, takeWhile_append_stop P xs ys h']
    · simp [List.takeWhile, hx]

theorem getLastD_irrel {α : Type _} :
    ∀ (l : List α), l ≠ [] → ∀ (a b : α), l.getLastD a = l.getLastD b
  | [], h, _, _ => absurd rfl h
  | x :: l, _, a, b => by
    simp only [List.getLastD_eq_getLast?]
    cases hl : (x :: l).getLast? with
    | none =>
      rw [List.getLast?_eq_none_iff] at hl
      exact absurd hl (by simp)
    | some y => rfl

theorem splitDots_getLastD :
    ∀ l : List Char,
      (splitDots l).getLastD []
        = (l.reverse.takeWhile (fun c => c ≠ '.')).reverse
  | [] => rfl
  | c :: cs => by
    have ih := splitDots_getLastD cs
    by_cases hnd : ∀ x ∈ cs, x ≠ '.'
    · have hs := splitDots_nodot cs hnd
      have hall : ∀ x ∈ cs.reverse, (fun c => decide (c ≠ '.')) x = true := by
        intro x hx
        simp [hnd x (List.mem_reverse.mp hx)]
      rw [List.reverse_cons, takeWhile_append_all _ _ _ hall]
      by_cases hc : c = '.'
      · rw [splitDots, hs]
        simp [hc, List.getLastD_cons]
      · rw [splitDots, hs]
        simp [hc, List.getLastD_cons]
    · have hstop : ¬ ∀ x ∈ cs.reverse, (fun c => decide (c ≠ '.')) x = true := by
        intro hfoo
        apply hnd
        intro x hx
        have := hfoo x (List.mem_reverse.mpr hx)
        simpa using this
      rw [List.reverse_cons, takeWhile_append_stop _ _ _ hstop, ← ih]
      match hrest : splitDots cs with
      | [] => exact absurd hrest (splitDots_ne_nil cs)
      | seg :: rest =>
        have hrest_ne : rest ≠ [] := by
          intro hr
          subst hr
          exact hnd (splitDots_single_nodot cs seg hrest)
        by_cases hc : c = '.'
        · rw [splitDots, hrest]
          simp [hc, List.getLastD_cons]
        · rw [splitDots, hrest]
          simp only [hc, if_false, List.getLastD_cons, reduceIte]
          exact getLastD_irrel rest hrest_ne (c :: seg) seg

theorem stringMk_toList (s : String) : String.mk s.toList = s := by
  cases s
  rfl

theorem lastSegment_spec (s : String) :
    String.mk (lastSegment s) = lastSegSpec s :=
  congrArg String.mk (splitDots_getLastD s.toList)

theorem treeMakefile_state (rng : Rng) :
    (layoutState treeMakefile 0 rng).1 = [mRec] := by
  rw [layoutState_zero]
  show (flattenNode rng (.mk "Makefile" .file none none none none)
    none ([], 0)).1 = _
  rw [flattenNode_go_none rng "Makefile" .file none none none none ([], 0)
    (by simp), pushNode_fst]
  simp [freshRecord, initialPlacement, mkId, mRec]

/-- C3 amended: every folder record's extension is the literal `folder`;
every file record's extension is the trailing segment of its id after the
last `.` (the longest dot-free suffix), and it is the literal `txt` exactly
when that trailing segment is empty — when the id contains no `.` at all,
the extension is the whole id, not `txt`. -/
theorem c3_extension (root : FileNode) (iters : ℕ) (rng : Rng) (now : ℝ)
    (i : ℕ) (c : CityNode)
    (hc : (generateCityLayout root iters rng now)[i]? = some c) :
    (c.type = NodeType.folder → c.extension = "folder")
      ∧ (c.type = NodeType.file →
          c.extension
            = (if lastSegSpec c.id = "" then "txt" else lastSegSpec c.id)) := by
  unfold generateCityLayout at hc
  rw [exportNodes_getElem] at hc
  cases hn : (layoutState root iters rng).1[i]? with
  | none => rw [hn] at hc; simp at hc
  | some n =>
    rw [hn] at hc
    have hceq : cityOf n (now - rng ((layoutState root iters rng).2 + i)
        * (1000 * 60 * 60 * 24 * 30)) = c := by
      simpa using hc
    subst hceq
    constructor
    · intro hf
      have hf' : n.type = NodeType.folder := hf
      simp [cityOf, extensionOf, hf']
    · intro hf
      have hf' : n.type = NodeType.file := hf
      show extensionOf n.type n.id
        = (if lastSegSpec n.id = "" then "txt" else lastSegSpec n.id)
      rw [hf']
      have h := lastSegment_spec n.id
      by_cases he : lastSegment n.id = []
      · have he2 : lastSegSpec n.id = "" := by
          rw [← h, he]
        rw [he2]
        simp [extensionOf, he]
      · have hne : lastSegSpec n.id ≠ "" := by
          rw [← h]
          intro hx
          apply he
          have hx2 := congrArg String.toList hx
          simpa using hx2
        rw [if_neg hne]
        show (if lastSegment n.id = [] then "txt"
          else String.mk (lastSegment n.id)) = _
        rw [if_neg he]
        exact h

/-- C3 counterexample: on the single-file tree whose root is named
`Makefile` — an id with no `.` — the produced extension is the whole id
`Makefile`, not the literal `txt` that the claim requires for dot-free
ids. -/
theorem c3_counterexample :
    (generateCityLayout treeMakefile 0 rngHalf 0).map CityNode.extension
        = ["Makefile"]
      ∧ (generateCityLayout treeMakefile 0 rngHalf 0).map CityNode.type
        = [NodeType.file]
      ∧ (∀ ch ∈ "Makefile".toList, ch ≠ '.')
      ∧ "Makefile" ≠ "txt" := by
  refine ⟨?_, ?_, by decide, by decide⟩
  · unfold generateCityLayout
    rw [treeMakefile_state]
    simp only [exportNodes, List.map_cons, List.map_nil]
    rw [show (cityOf mRec _).extension = extensionOf NodeType.file "Makefile"
      from rfl]
    rfl
  · unfold generateCityLayout
    rw [treeMakefile_state]
    simp only [exportNodes, List.map_cons, List.map_nil]
    rfl

theorem c3_extension_witness :
    (generateCityLayout treeMakefile 0 rngHalf 0)[0]? = some mCity
      ∧ ((mCity.type = NodeType.folder → mCity.extension = "folder")
          ∧ (mCity.type = NodeType.file →
              mCity.extension
                = (if lastSegSpec mCity.id = "" then "txt"
                   else lastSegSpec mCity.id))) := by
  have hc : (generateCityLayout treeMakefile 0 rngHalf 0)[0]? = some mCity := by
    unfold generateCityLayout
    rw [exportNodes_getElem, treeMakefile_state]
    simp [rngHalf, mCity]
  exact ⟨hc, c3_extension treeMakefile 0 rngHalf 0 0 mCity hc⟩

/-! ### Zero iterations: positions are the flattener's initial placement
(claim C9) -/

theorem setChild_map_posXZ (p k : String) :
    ∀ l : List SimulationNode, (setChild p k l).map posXZ = l.map posXZ
  | [] => rfl
  | n :: ns => by
    by_cases h : n.id = p <;>
      simp [setChild, posXZ, h, setChild_map_posXZ p k ns]

theorem pushNode_map_posXZ (rng : Rng) (name : String) (ty : NodeType)
    (ch : Option (List FileNode)) (nloc : Option ℕ)
    (content u : Option String) (pid : Option String) (st : SimSt) :
    ((pushNode rng (.mk name ty ch nloc content u) pid st).1).map posXZ
      = st.1.map posXZ
        ++ [((initialPlacement rng pid st).1.x,
             (initialPlacement rng pid st).1.z)] := by
  rw [pushNode_fst]
  cases pid with
  | none => simp [freshRecord, posXZ]
  | some p =>
    by_cases hp : p = "" <;>
      simp [hp, freshRecord, posXZ, setChild_map_posXZ]

mutual

theorem flattenNode_posXZ_prefix (rng : Rng) (n : FileNode)
    (pid : Option String) (st : SimSt) :
    ∃ tail, ((flattenNode rng n pid st).1).map posXZ
      = st.1.map posXZ ++ tail := by
  match n with
  | .mk name ty ch nloc content u =>
    by_cases hcap : 400 ≤ st.1.length
    · exact ⟨[], by
        rw [flattenNode_cap rng name ty ch nloc content u pid st hcap]
        simp⟩
    · match ch with
      | none =>
        exact ⟨_, by
          rw [flattenNode_go_none rng name ty nloc content u pid st hcap,
            pushNode_map_posXZ]⟩
      | some cs =>
        obtain ⟨tail2, h2⟩ := flattenChildren_posXZ_prefix rng cs
          (mkId pid name)
          (pushNode rng (.mk name ty (some cs) nloc content u) pid st)
        refine ⟨[((initialPlacement rng pid st).1.x,
          (initialPlacement rng pid st).1.z)] ++ tail2, ?_⟩
        rw [flattenNode_go_some rng name ty cs nloc content u pid st hcap,
          h2, pushNode_map_posXZ, List.append_assoc]

theorem flattenChildren_posXZ_prefix (rng : Rng) (cs : List FileNode)
    (d : String) (st : SimSt) :
    ∃ tail, ((flattenChildren rng cs d st).1).map posXZ
      = st.1.map posXZ ++ tail := by
  match cs with
  | [] => exact ⟨[], by rw [flattenChildren_nil]; simp⟩
  | c :: rest =>
    obtain ⟨t1, h1⟩ := flattenNode_posXZ_prefix rng c (some d) st
    obtain ⟨t2, h2⟩ := flattenChildren_posXZ_prefix rng rest d
      (flattenNode rng c (some d) st)
    exact ⟨t1 ++ t2, by
      rw [flattenChildren_cons, h2, h1, List.append_assoc]⟩

end

theorem exportNodes_map_posXZ (rng : Rng) (now : ℝ) :
    ∀ (ns : List SimulationNode) (c : ℕ),
      (exportNodes rng now ns c).map cposXZ = ns.map posXZ
  | [], _ => rfl
  | n :: ns, c => by
    simp only [exportNodes, List.map_cons,
      exportNodes_map_posXZ rng now ns (c + 1)]
    rfl

/-- C9: with `iterations = 0` the simulation loop never runs, so every
output record's horizontal coordinates equal the flattener's initial
placement unmodified, and the root record (the first one) sits at the
origin. -/
theorem c9_zero_iterations (root : FileNode) (rng : Rng) (now : ℝ) :
    (generateCityLayout root 0 rng now).map cposXZ
        = ((flattenNode rng root none ([], 0)).1).map posXZ
      ∧ ((generateCityLayout root 0 rng now).map cposXZ).head?
          = some (0, 0) := by
  have h1 : (generateCityLayout root 0 rng now).map cposXZ
      = ((flattenNode rng root none ([], 0)).1).map posXZ := by
    unfold generateCityLayout
    rw [exportNodes_map_posXZ, layoutState_zero]
  refine ⟨h1, ?_⟩
  rw [h1]
  match root with
  | .mk name ty ch nloc content u =>
    have hcap : ¬ 400 ≤ (([], 0) : SimSt).1.length := by simp
    match ch with
    | none =>
      rw [flattenNode_go_none rng name ty nloc content u none ([], 0) hcap,
        pushNode_map_posXZ]
      simp [initialPlacement, Vec3.zero]
    | some cs =>
      obtain ⟨tail2, h2⟩ := flattenChildren_posXZ_prefix rng cs
        (mkId none name)
        (pushNode rng (.mk name ty (some cs) nloc content u) none ([], 0))
      rw [flattenNode_go_some rng name ty cs nloc content u none ([], 0) hcap,
        h2, pushNode_map_posXZ]
      simp [initialPlacement, Vec3.zero]

/-! ### Single-node trees stay at the origin (claim C7) -/

theorem computeForce_singleton (pad rep att : ℝ) (rng : Rng)
    (n : SimulationNode) (hp : n.position = Vec3.zero)
    (hroot : n.parentId = none) (c : ℕ) :
    computeForce pad rep att rng [n] n c = (Vec3.zero, c) := by
  unfold computeForce
  simp [hroot, hp, Vec3.add, Vec3.sub, Vec3.smul, Vec3.withY, Vec3.zero]

theorem velocityPhase_singleton (pad rep att : ℝ) (rng : Rng)
    (n : SimulationNode) (hp : n.position = Vec3.zero)
    (hv : n.velocity = Vec3.zero) (hroot : n.parentId = none) (c : ℕ) :
    velocityPhase pad rep att rng ([n], c) = ([n], c) := by
  show (velRun pad rep att rng [n] [n] c) = ([n], c)
  rw [velRun, velRun, computeForce_singleton pad rep att rng n hp hroot c]
  have hX : n.velocity.add (Vec3.zero.smul TIME_STEP) = n.velocity := by
    rw [hv]
    simp [Vec3.add, Vec3.smul, Vec3.zero]
  show ([{ n with velocity := n.velocity.add (Vec3.zero.smul TIME_STEP) }], c)
    = ([n], c)
  rw [hX]

theorem integrate_singleton (n : SimulationNode)
    (hp : n.position = Vec3.zero) (hv : n.velocity = Vec3.zero) :
    integrate n = n := by
  have hA : (n.velocity.smul DAMPING).smul TIME_STEP = n.velocity := by
    rw [hv]
    simp [Vec3.smul, Vec3.zero]
  have hB : (n.position.add n.velocity).withY 0 = n.position := by
    rw [hv, hp]
    simp [Vec3.add, Vec3.withY, Vec3.zero]
  show ({ n with
      velocity := (n.velocity.smul DAMPING).smul TIME_STEP,
      position :=
        (n.position.add ((n.velocity.smul DAMPING).smul TIME_STEP)).withY 0 }
    : SimulationNode) = n
  rw [hA, hB]

theorem collisionPass_singleton (pad : ℝ) (n : SimulationNode) :
    collisionPass pad [n] = [n] := by
  unfold collisionPass
  simp [List.range_succ, collideAt]

theorem simIterate_singleton (pad rep att : ℝ) (rng : Rng)
    (n : SimulationNode) (hp : n.position = Vec3.zero)
    (hv : n.velocity = Vec3.zero) (hroot : n.parentId = none) (c : ℕ) :
    simIterate pad rep att rng ([n], c) = ([n], c) := by
  unfold simIterate
  rw [velocityPhase_singleton pad rep att rng n hp hv hroot c]
  show (collisionPass pad (collisionPass pad ([n].map integrate)), c)
    = ([n], c)
  rw [show ([n].map integrate) = [n] by
      simp [integrate_singleton n hp hv],
    collisionPass_singleton, collisionPass_singleton]

theorem simLoop_singleton (pad rep att : ℝ) (rng : Rng)
    (n : SimulationNode) (hp : n.position = Vec3.zero)
    (hv : n.velocity = Vec3.zero) (hroot : n.parentId = none) :
    ∀ (k : ℕ) (c : ℕ), simLoop pad rep att rng k ([n], c) = ([n], c)
  | 0, c => rfl
  | k + 1, c => by
    rw [simLoop, simIterate_singleton pad rep att rng n hp hv hroot c,
      simLoop_singleton pad rep att rng n hp hv hroot k c]

/-- C7: for every single-node input tree (no children, or an empty child
list) the simulation has no repulsion partner, the root-to-origin
attraction is zero at the origin, and the node stays at the origin for
every iteration count; in particular a root-only folder yields one output
record with position `(0, 0.5, 0)` and size `(15, 1, 15)`. -/
theorem c7_single_node (name : String) (ty : NodeType)
    (ch : Option (List FileNode)) (nloc : Option ℕ)
    (content u : Option String) (hch : ch = none ∨ ch = some [])
    (iters : ℕ) (rng : Rng) (now : ℝ) :
    ∃ c : CityNode,
      generateCityLayout (.mk name ty ch nloc content u) iters rng now = [c]
        ∧ c.position.x = 0 ∧ c.position.z = 0
        ∧ (ty = NodeType.folder →
            c.position = ⟨0, 0.5, 0⟩ ∧ c.size = ⟨15, 1, 15⟩) := by
  have hcap : ¬ 400 ≤ (([], 0) : SimSt).1.length := by simp
  have hpush : pushNode rng (.mk name ty ch nloc content u) none ([], 0)
      = ([freshRecord rng name ty nloc content u none ([], 0)], 0) := rfl
  have hflat : flattenNode rng (.mk name ty ch nloc content u) none ([], 0)
      = ([freshRecord rng name ty nloc content u none ([], 0)], 0) := by
    rcases hch with rfl | rfl
    · rw [flattenNode_go_none rng name ty nloc content u none ([], 0) hcap,
        hpush]
    · rw [flattenNode_go_some rng name ty [] nloc content u none ([], 0) hcap,
        flattenChildren_nil, hpush]
  have hr1 : (freshRecord rng name ty nloc content u none ([], 0)).position
      = Vec3.zero := rfl
  have hr2 : (freshRecord rng name ty nloc content u none ([], 0)).velocity
      = Vec3.zero := rfl
  have hr3 : (freshRecord rng name ty nloc content u none ([], 0)).parentId
      = none := rfl
  have hstate : layoutState (.mk name ty ch nloc content u) iters rng
      = ([freshRecord rng name ty nloc content u none ([], 0)], 0) := by
    unfold layoutState
    rw [hflat]
    exact simLoop_singleton _ _ _ rng _ hr1 hr2 hr3 iters 0
  refine ⟨cityOf (freshRecord rng name ty nloc content u none ([], 0))
    (now - rng 0 * (1000 * 60 * 60 * 24 * 30)), ?_, rfl, rfl, ?_⟩
  · unfold generateCityLayout
    rw [hstate]
    rfl
  · intro hf
    constructor
    · show (⟨0, (freshRecord rng name ty nloc content u none ([], 0)).targetHeight / 2, 0⟩ : Vec3) = ⟨0, 0.5, 0⟩
      have hth : (freshRecord rng name ty nloc content u none ([], 0)).targetHeight = 1 := by
        simp [freshRecord, hf]
      rw [hth]
      norm_num
    · show (⟨(freshRecord rng name ty nloc content u none ([], 0)).radius * 1.5,
        (freshRecord rng name ty nloc content u none ([], 0)).targetHeight,
        (freshRecord rng name ty nloc content u none ([], 0)).radius * 1.5⟩ : Vec3) = ⟨15, 1, 15⟩
      have hth : (freshRecord rng name ty nloc content u none ([], 0)).targetHeight = 1 := by
        simp [freshRecord, hf]
      have hrad : (freshRecord rng name ty nloc content u none ([], 0)).radius = 10 := by
        simp [freshRecord, hf]
      rw [hth, hrad]
      norm_num

theorem c7_single_node_witness :
    ((none : Option (List FileNode)) = none
        ∨ (none : Option (List FileNode)) = some [])
      ∧ ∃ c : CityNode,
          generateCityLayout (.mk "repo" .folder none none none none)
              50 rngHalf 0 = [c]
            ∧ c.position.x = 0 ∧ c.position.z = 0
            ∧ (NodeType.folder = NodeType.folder →
                c.position = ⟨0, 0.5, 0⟩ ∧ c.size = ⟨15, 1, 15⟩) :=
  ⟨Or.inl rfl,
   c7_single_node "repo" .folder none none none none (Or.inl rfl) 50 rngHalf 0⟩

/-! ### The integration step double-scales the stored velocity (claim C2) -/

theorem velRun_getElem (pad rep att : ℝ) (rng : Rng)
    (all : List SimulationNode) :
    ∀ (ns : List SimulationNode) (c i : ℕ) (n : SimulationNode),
      ns[i]? = some n →
      ∃ k, (velRun pad rep att rng all ns c).1[i]?
        = some { n with velocity := (n.velocity.add
            ((computeForce pad rep att rng all n k).1.smul TIME_STEP)) }
  | [], _, _, _, h => by simp at h
  | m :: ns, c, 0, n, h => by
    simp only [List.getElem?_cons_zero, Option.some.injEq] at h
    subst h
    exact ⟨c, by simp [velRun]⟩
  | m :: ns, c, i + 1, n, h => by
    simp only [List.getElem?_cons_succ] at h
    obtain ⟨k, hk⟩ := velRun_getElem pad rep att rng all ns
      (computeForce pad rep att rng all m c).2 i n h
    exact ⟨k, by simp [velRun, hk]⟩

theorem collideAt_map_velocity (pad : ℝ) (ns : List SimulationNode)
    (i j : ℕ) :
    (collideAt pad ns i j).map SimulationNode.velocity
      = ns.map SimulationNode.velocity := by
  unfold collideAt
  cases hi : ns[i]? with
  | none => rfl
  | some a =>
    cases hj : ns[j]? with
    | none => rfl
    | some b =>
      by_cases hab : a.id = b.id
      · simp [hab]
      · simp only [hab, if_false]
        split
        · have h1 : (ns.map SimulationNode.velocity)[i]? = some a.velocity := by
            rw [List.getElem?_map, hi]; rfl
          have h2 : (ns.map SimulationNode.velocity)[j]? = some b.velocity := by
            rw [List.getElem?_map, hj]; rfl
          rw [mapSet, mapSet]
          show ((ns.map SimulationNode.velocity).set i a.velocity).set j
            b.velocity = ns.map SimulationNode.velocity
          rw [set_self_of_getElem _ _ _ h1, set_self_of_getElem _ _ _ h2]
        · rfl

theorem collisionPass_map_velocity (pad : ℝ) (ns : List SimulationNode) :
    (collisionPass pad ns).map SimulationNode.velocity
      = ns.map SimulationNode.velocity := by
  unfold collisionPass
  refine foldl_preserve (P := fun acc : List SimulationNode =>
    acc.map SimulationNode.velocity = ns.map SimulationNode.velocity)
    ?_ _ ns rfl
  intro acc i hacc
  refine foldl_preserve (P := fun acc2 : List SimulationNode =>
    acc2.map SimulationNode.velocity = ns.map SimulationNode.velocity)
    ?_ _ acc hacc
  intro acc2 j hacc2
  rw [collideAt_map_velocity, hacc2]

/-- C2 amended: in each simulation iteration every record first gains
`force × TIME_STEP` on its velocity; the integration step then scales the
stored velocity in place by `DAMPING` and — because the position update
reuses the same mutated vector — by `TIME_STEP` as well, so the record
carries velocity `0.1 × 0.9 × (velocity + force × 0.1)` into the next
iteration, its position advances by exactly that carried vector before the
vertical coordinate is reset to 0, and the collision resolver never writes
velocities. -/
theorem c2_integration (pad rep att : ℝ) (rng : Rng)
    (ns : List SimulationNode) (c i : ℕ) (n : SimulationNode)
    (hn : ns[i]? = some n) :
    (∃ k, (((velocityPhase pad rep att rng (ns, c)).1).map integrate)[i]?
        = some { n with
            velocity := (((n.velocity.add
              ((computeForce pad rep att rng ns n k).1.smul
                TIME_STEP)).smul DAMPING).smul TIME_STEP),
            position := ((n.position.add
              (((n.velocity.add
                ((computeForce pad rep att rng ns n k).1.smul
                  TIME_STEP)).smul DAMPING).smul TIME_STEP)).withY 0) })
      ∧ ((simIterate pad rep att rng (ns, c)).1).map SimulationNode.velocity
          = (((velocityPhase pad rep att rng (ns, c)).1).map
              integrate).map SimulationNode.velocity := by
  constructor
  · obtain ⟨k, hk⟩ := velRun_getElem pad rep att rng ns ns c i n hn
    refine ⟨k, ?_⟩
    rw [List.getElem?_map]
    show Option.map integrate (velRun pad rep att rng ns ns c).1[i]? = _
    rw [hk]
    rfl
  · show (collisionPass pad (collisionPass pad _)).map SimulationNode.velocity
      = _
    rw [collisionPass_map_velocity, collisionPass_map_velocity]

/-- C2 counterexample: at the concrete two-record state `[cn0, cn2]` —
root at the origin and a far-away file child, so the only force on the
child is the attraction toward its parent — the velocity the child carries
out of the iteration is `0.1 × 0.9 × (velocity + force × 0.1)`, not the
claimed damped value `0.9 × (velocity + force × 0.1)`. -/
theorem c2_counterexample :
    (((velocityPhase 15 2000 0.01 rngHalf ([cn0, cn2], 0)).1.map
        integrate))[1]?.map SimulationNode.velocity
      ≠ some ((cn2.velocity.add
          ((computeForce 15 2000 0.01 rngHalf [cn0, cn2] cn2 0).1.smul
            TIME_STEP)).smul DAMPING) := by
  have hL : (((velocityPhase 15 2000 0.01 rngHalf ([cn0, cn2], 0)).1.map
      integrate))[1]?.map SimulationNode.velocity
      = some ⟨-(9 / 1000), 0, 0⟩ := by
    simp only [velocityPhase, velRun, List.map_cons, List.map_nil,
      List.getElem?_cons_succ, List.getElem?_cons_zero]
    norm_num [computeForce, List.foldl, List.find?, cn0, cn2, integrate,
      Vec3.add, Vec3.sub, Vec3.smul, Vec3.withY, Vec3.zero, Vec3.lengthSq,
      TIME_STEP, DAMPING]
  have hR : ((cn2.velocity.add
      ((computeForce 15 2000 0.01 rngHalf [cn0, cn2] cn2 0).1.smul
        TIME_STEP)).smul DAMPING) = ⟨-(9 / 100), 0, 0⟩ := by
    norm_num [computeForce, List.foldl, List.find?, cn0, cn2,
      Vec3.add, Vec3.sub, Vec3.smul, Vec3.withY, Vec3.zero, Vec3.lengthSq,
      TIME_STEP, DAMPING]
  rw [hL, hR]
  intro hcontra
  have hx := congrArg Vec3.x (Option.some.inj hcontra)
  norm_num at hx

theorem c2_integration_witness :
    ([cn0] : List SimulationNode)[0]? = some cn0
      ∧ ((∃ k, (((velocityPhase 15 2000 0.01 rngHalf ([cn0], 0)).1).map
              integrate)[0]?
            = some { cn0 with
                velocity := (((cn0.velocity.add
                  ((computeForce 15 2000 0.01 rngHalf [cn0] cn0 k).1.smul
                    TIME_STEP)).smul DAMPING).smul TIME_STEP),
                position := ((cn0.position.add
                  (((cn0.velocity.add
                    ((computeForce 15 2000 0.01 rngHalf [cn0] cn0 k).1.smul
                      TIME_STEP)).smul DAMPING).smul TIME_STEP)).withY 0) })
          ∧ ((simIterate 15 2000 0.01 rngHalf ([cn0], 0)).1).map
              SimulationNode.velocity
            = (((velocityPhase 15 2000 0.01 rngHalf ([cn0], 0)).1).map
                integrate).map SimulationNode.velocity) :=
  ⟨rfl, c2_integration 15 2000 0.01 rngHalf [cn0] 0 0 cn0 rfl⟩

/-! ### Vector geometry lemmas for the collision resolver -/

theorem Vec3.lengthSq_nonneg (a : Vec3) : 0 ≤ a.lengthSq := by
  unfold Vec3.lengthSq
  nlinarith [mul_self_nonneg a.x, mul_self_nonneg a.y, mul_self_nonneg a.z]

theorem Vec3.length_nonneg (a : Vec3) : 0 ≤ a.length :=
  Real.sqrt_nonneg _

theorem Vec3.length_eq_zero_iff (a : Vec3) : a.length = 0 ↔ a = ⟨0, 0, 0⟩ := by
  rw [Vec3.length, Real.sqrt_eq_zero (Vec3.lengthSq_nonneg a)]
  unfold Vec3.lengthSq
  constructor
  · intro h
    have hx : a.x = 0 := by
      nlinarith [mul_self_nonneg a.x, mul_self_nonneg a.y,
        mul_self_nonneg a.z]
    have hy : a.y = 0 := by
      nlinarith [mul_self_nonneg a.x, mul_self_nonneg a.y,
        mul_self_nonneg a.z]
    have hz : a.z = 0 := by
      nlinarith [mul_self_nonneg a.x, mul_self_nonneg a.y,
        mul_self_nonneg a.z]
    cases a
    simp_all
  · intro h
    rw [h]
    norm_num

theorem Vec3.length_smul (a : Vec3) (s : ℝ) :
    (a.smul s).length = |s| * a.length := by
  unfold Vec3.length Vec3.lengthSq Vec3.smul
  simp only []
  rw [show a.x * s * (a.x * s) + a.y * s * (a.y * s) + a.z * s * (a.z * s)
    = s ^ 2 * (a.x * a.x + a.y * a.y + a.z * a.z) by ring,
    Real.sqrt_mul (sq_nonneg s), Real.sqrt_sq_eq_abs]

theorem Vec3.normalize_zero : (⟨0, 0, 0⟩ : Vec3).normalize = ⟨0, 0, 0⟩ := by
  unfold Vec3.normalize
  rw [if_pos]
  rw [Vec3.length_eq_zero_iff]

theorem Vec3.normalize_of_ne_zero (v : Vec3) (h : v.length ≠ 0) :
    v.normalize = v.smul v.length⁻¹ := if_neg h

theorem Vec3.add_smul_zero (p : Vec3) (s : ℝ) :
    p.add ((⟨0, 0, 0⟩ : Vec3).smul s) = p := by
  cases p
  simp [Vec3.add, Vec3.smul]

theorem Vec3.sub_smul_zero (p : Vec3) (s : ℝ) :
    p.sub ((⟨0, 0, 0⟩ : Vec3).smul s) = p := by
  cases p
  simp [Vec3.sub, Vec3.smul]

theorem Vec3.smul_smul (a : Vec3) (s t : ℝ) :
    (a.smul s).smul t = a.smul (s * t) := by
  simp [Vec3.smul, mul_assoc]

theorem Vec3.rev_diff (a b : Vec3) :
    (b.sub a).withY 0 = ((a.sub b).withY 0).smul (-1) := by
  simp only [Vec3.sub, Vec3.withY, Vec3.smul, Vec3.mk.injEq]
  refine ⟨by ring, by ring, by ring⟩

theorem Vec3.withY0_y (v : Vec3) : (v.withY 0).y = 0 := rfl

/-! ### The collision resolver on a two-record state (claim C6) -/

theorem collideAt_self (pad : ℝ) (ns : List SimulationNode) (i : ℕ) :
    collideAt pad ns i i = ns := by
  unfold collideAt
  cases h : ns[i]? with
  | none => rfl
  | some a => simp

theorem collideAt_01 (pad : ℝ) (a b : SimulationNode) (hab : a.id ≠ b.id) :
    collideAt pad [a, b] 0 1
      = if ((a.position.sub b.position).withY 0).length
            < a.radius + b.radius + pad then
          [{ a with position := (a.position.add
              ((((a.position.sub b.position).withY 0).normalize).smul
                ((a.radius + b.radius + pad
                  - ((a.position.sub b.position).withY 0).length) * 0.5))) },
           { b with position := (b.position.sub
              ((((a.position.sub b.position).withY 0).normalize).smul
                ((a.radius + b.radius + pad
                  - ((a.position.sub b.position).withY 0).length) * 0.5))) }]
        else [a, b] := by
  unfold collideAt
  simp only [List.getElem?_cons_zero, List.getElem?_cons_succ, hab, if_false]
  split <;> rfl

theorem collideAt_10 (pad : ℝ) (a b : SimulationNode) (hab : b.id ≠ a.id) :
    collideAt pad [a, b] 1 0
      = if ((b.position.sub a.position).withY 0).length
            < b.radius + a.radius + pad then
          [{ a with position := (a.position.sub
              ((((b.position.sub a.position).withY 0).normalize).smul
                ((b.radius + a.radius + pad
                  - ((b.position.sub a.position).withY 0).length) * 0.5))) },
           { b with position := (b.position.add
              ((((b.position.sub a.position).withY 0).normalize).smul
                ((b.radius + a.radius + pad
                  - ((b.position.sub a.position).withY 0).length) * 0.5))) }]
        else [a, b] := by
  unfold collideAt
  simp only [List.getElem?_cons_zero, List.getElem?_cons_succ, hab, if_false]
  split <;> rfl

theorem collisionPass_two (pad : ℝ) (a b : SimulationNode) :
    collisionPass pad [a, b]
      = collideAt pad (collideAt pad
          (collideAt pad (collideAt pad [a, b] 0 0) 0 1) 1 0) 1 1 := by
  unfold collisionPass
  simp [List.range_succ]

theorem collisionPass_pair (pad : ℝ) (a b : SimulationNode)
    (hab : a.id ≠ b.id) :
    ∃ a' b', collisionPass pad [a, b] = [a', b']
      ∧ shape a' = shape a ∧ shape b' = shape b
      ∧ (horizDist a'.position b'.position ≥ a.radius + b.radius + pad
         ∨ horizDist a'.position b'.position = 0) := by
  have hba : b.id ≠ a.id := fun h => hab h.symm
  have hzero_len : ((⟨0, 0, 0⟩ : Vec3)).length = 0 :=
    (Vec3.length_eq_zero_iff _).mpr rfl
  rw [collisionPass_two, collideAt_self, collideAt_self,
    collideAt_01 pad a b hab]
  by_cases hlt : ((a.position.sub b.position).withY 0).length
      < a.radius + b.radius + pad
  · by_cases hd0 : ((a.position.sub b.position).withY 0).length = 0
    · -- degenerate pair: the correction is the zero vector
      have hD : (a.position.sub b.position).withY 0 = ⟨0, 0, 0⟩ :=
        (Vec3.length_eq_zero_iff _).mp hd0
      have hDr : (b.position.sub a.position).withY 0 = ⟨0, 0, 0⟩ := by
        rw [Vec3.rev_diff, hD]
        simp [Vec3.smul]
      rw [if_pos hlt, hD, Vec3.normalize_zero, Vec3.add_smul_zero,
        Vec3.sub_smul_zero]
      show ∃ a' b', collideAt pad [a, b] 1 0 = [a', b'] ∧ _
      rw [collideAt_10 pad a b hba, hDr, hzero_len]
      by_cases hlt2 : (0 : ℝ) < b.radius + a.radius + pad
      · rw [if_pos (by simpa using hlt2), Vec3.normalize_zero,
          Vec3.add_smul_zero, Vec3.sub_smul_zero]
        exact ⟨a, b, rfl, rfl, rfl, Or.inr hd0⟩
      · rw [if_neg (by simpa using hlt2)]
        exact ⟨a, b, rfl, rfl, rfl, Or.inr hd0⟩
    · -- separated pair: pushed to exactly the minimum distance
      have hdpos : 0 < ((a.position.sub b.position).withY 0).length :=
        (Vec3.length_nonneg _).lt_of_ne (Ne.symm hd0)
      have hmdpos : 0 < a.radius + b.radius + pad := lt_trans hdpos hlt
      rw [if_pos hlt, Vec3.normalize_of_ne_zero _ hd0, Vec3.smul_smul]
      set D := (a.position.sub b.position).withY 0 with hDdef
      set d := D.length with hddef
      set md := a.radius + b.radius + pad with hmddef
      set t := d⁻¹ * ((md - d) * 0.5) with htdef
      set A := { a with position := (a.position.add (D.smul t)) } with hA
      set B := { b with position := (b.position.sub (D.smul t)) } with hB
      have hDx : D.x = a.position.x - b.position.x := by rw [hDdef]; rfl
      have hDy : D.y = 0 := by rw [hDdef]; rfl
      have hDz : D.z = a.position.z - b.position.z := by rw [hDdef]; rfl
      have hDnew : ((A.position.sub B.position).withY 0)
          = D.smul (md / d) := by
        rw [hA, hB]
        show (((a.position.add (D.smul t)).sub
          ((b.position.sub (D.smul t)))).withY 0) = D.smul (md / d)
        simp only [Vec3.add, Vec3.sub, Vec3.smul, Vec3.withY, Vec3.mk.injEq]
        refine ⟨?_, by rw [hDy]; ring, ?_⟩
        · rw [show a.position.x + D.x * t - (b.position.x - D.x * t)
            = (a.position.x - b.position.x) + 2 * (D.x * t) by ring, ← hDx,
            htdef]
          field_simp
          ring
        · rw [show a.position.z + D.z * t - (b.position.z - D.z * t)
            = (a.position.z - b.position.z) + 2 * (D.z * t) by ring, ← hDz,
            htdef]
          field_simp
          ring
      have hlen_new : ((A.position.sub B.position).withY 0).length = md := by
        rw [hDnew, Vec3.length_smul, ← hddef,
          abs_of_pos (div_pos hmdpos hdpos)]
        field_simp
      have hlen_rev : ((B.position.sub A.position).withY 0).length = md := by
        rw [Vec3.rev_diff, Vec3.length_smul, hlen_new]
        simp
      have hAid : A.id = a.id := by rw [hA]
      have hBid : B.id = b.id := by rw [hB]
      have hBAne : B.id ≠ A.id := by rw [hAid, hBid]; exact hba
      rw [collideAt_10 pad A B hBAne]
      rw [if_neg (by
        rw [hlen_rev]
        have hrad : B.radius + A.radius + pad = md := by
          rw [hA, hB, hmddef]
          show b.radius + a.radius + pad = a.radius + b.radius + pad
          ring
        rw [hrad]
        exact lt_irrefl md)]
      refine ⟨A, B, rfl, by rw [hA]; rfl, by rw [hB]; rfl, Or.inl ?_⟩
      show ((A.position.sub B.position).withY 0).length ≥ md
      rw [hlen_new]
  · -- already separated: nothing moves
    rw [if_neg hlt, collideAt_10 pad a b hba]
    rw [if_neg (by
      rw [Vec3.rev_diff, Vec3.length_smul]
      simp only [abs_neg, abs_one, one_mul]
      rw [show b.radius + a.radius + pad = a.radius + b.radius + pad by ring]
      exact hlt)]
    exact ⟨a, b, rfl, rfl, rfl, Or.inl (not_lt.mp hlt)⟩

theorem map_eq_two {α β : Type _} (f : α → β) (l : List α) (x y : β)
    (h : l.map f = [x, y]) :
    ∃ a b, l = [a, b] ∧ f a = x ∧ f b = y := by
  match l with
  | [] => simp at h
  | [a] => simp at h
  | a :: b :: c :: r => simp at h
  | [a, b] =>
    simp only [List.map_cons, List.map_nil, List.cons.injEq, and_true] at h
    exact ⟨a, b, rfl, h.1, h.2⟩

theorem simLoop_succ_exists (pad rep att : ℝ) (rng : Rng) :
    ∀ (k : ℕ) (st : SimSt), ∃ st',
      simLoop pad rep att rng (k + 1) st = simIterate pad rep att rng st'
  | 0, st => ⟨st, rfl⟩
  | k + 1, st => by
    obtain ⟨st', h⟩ := simLoop_succ_exists pad rep att rng k
      (simIterate pad rep att rng st)
    exact ⟨st', by rw [simLoop, h]⟩

theorem treeB_flatten_shape (rng : Rng) :
    ((flattenNode rng treeB none ([], 0)).1).map shape
      = [⟨"repo", .folder, 10, 1, none, ["repo/a.ts"], none, 0, none⟩,
         ⟨"repo/a.ts", .file, 5, 50, some "repo", [], none, 100, none⟩] := by
  show ((flattenNode rng
    (.mk "repo" .folder (some [.mk "a.ts" .file none (some 100) none none])
      none none none) none ([], 0)).1).map shape = _
  rw [flattenNode_go_some rng "repo" .folder _ none none none none ([], 0)
    (by simp), flattenChildren_cons, flattenChildren_nil]
  rw [show mkId none "repo" = "repo" from rfl]
  rw [flattenNode_go_none rng "a.ts" .file (some 100) none none (some "repo")
    (pushNode rng (.mk "repo" .folder
      (some [.mk "a.ts" .file none (some 100) none none]) none none none)
      none ([], 0))
    (by
      rw [pushNode_length]
      simp)]
  rw [pushNode_map_shape, pushNode_map_shape]
  simp only [mkId]
  rw [show ("repo" ++ "/" ++ "a.ts") = "repo/a.ts" from rfl]
  simp [setChildShape, freshShape, shape, mkId]
  norm_num

/-- C6 amended: for scenario B (root folder `repo` with one file child
`a.ts` of `loc = 100`) the file record's target height is
`clamp(50, 2, 100) = 50` and its size `(7.5, 50, 7.5)`, the root's size is
`(15, 1, 15)`; after the default 50-iteration simulation — whose spacing
multiplier is `max(1, ln 2 × 0.5) = 1`, hence padding 15 — the horizontal
distance between the two records is at least `5 + 10 + 15 = 30` (the final
collision-resolution pass pushes an overlapping pair to exactly the
minimum separation), unless the two records coincide horizontally exactly,
as happens for degenerate random draws, in which case the distance is 0. -/
theorem c6_scenario_b (rng : Rng) (now : ℝ) :
    ∃ c0 c1, generateCityLayout treeB 50 rng now = [c0, c1]
      ∧ c0.size = ⟨15, 1, 15⟩ ∧ c1.size = ⟨7.5, 50, 7.5⟩
      ∧ (horizDist c0.position c1.position ≥ 5 + 10 + 15
         ∨ horizDist c0.position c1.position = 0) := by
  have hlen2 : ((flattenNode rng treeB none ([], 0)).1).length = 2 := by
    have h := congrArg List.length (treeB_flatten_shape rng)
    simpa using h
  have hmult2 : max 1 (Real.log 2 * 0.5) = (1 : ℝ) := by
    have hl2 : Real.log 2 ≤ 1 := by
      have h := Real.log_le_sub_one_of_pos (show (0:ℝ) < 2 by norm_num)
      linarith
    have hl0 : (0:ℝ) ≤ Real.log 2 := Real.log_nonneg (by norm_num)
    apply max_eq_left
    nlinarith
  have hlayout : layoutState treeB 50 rng
      = simLoop 15 2000 0.01 rng 50 (flattenNode rng treeB none ([], 0)) := by
    simp only [layoutState]
    rw [hlen2, show ((2:ℕ):ℝ) = (2:ℝ) by norm_num, hmult2, mul_one, mul_one,
      div_one]
  obtain ⟨st', hst'⟩ := simLoop_succ_exists 15 2000 0.01 rng 49
    (flattenNode rng treeB none ([], 0))
  have hfinal1 : (layoutState treeB 50 rng).1
      = collisionPass 15 (collisionPass 15
          (((velocityPhase 15 2000 0.01 rng st').1).map integrate)) := by
    rw [hlayout, show (50:ℕ) = 49 + 1 by norm_num, hst']
    rfl
  have hshape50 : ((layoutState treeB 50 rng).1).map shape
      = [⟨"repo", .folder, 10, 1, none, ["repo/a.ts"], none, 0, none⟩,
         ⟨"repo/a.ts", .file, 5, 50, some "repo", [], none, 100, none⟩] := by
    rw [layoutState_shape_flatten]
    exact treeB_flatten_shape rng
  have hMIDshape : ((((velocityPhase 15 2000 0.01 rng st').1).map
      integrate)).map shape
      = [⟨"repo", .folder, 10, 1, none, ["repo/a.ts"], none, 0, none⟩,
         ⟨"repo/a.ts", .file, 5, 50, some "repo", [], none, 100, none⟩] := by
    have h1 := hshape50
    rw [hfinal1, collisionPass_map_shape, collisionPass_map_shape] at h1
    exact h1
  obtain ⟨m0, m1, hm, hsm0, hsm1⟩ := map_eq_two shape _ _ _ hMIDshape
  have hne : m0.id ≠ m1.id := by
    have hid0 : m0.id = "repo" := congrArg NodeShape.id hsm0
    have hid1 : m1.id = "repo/a.ts" := congrArg NodeShape.id hsm1
    rw [hid0, hid1]
    decide
  obtain ⟨p1, q1, hpass1, hs1a, hs1b, hdisj1⟩ := collisionPass_pair 15 m0 m1 hne
  have hne2 : p1.id ≠ q1.id := by
    have h1 : p1.id = m0.id := congrArg NodeShape.id hs1a
    have h2 : q1.id = m1.id := congrArg NodeShape.id hs1b
    rw [h1, h2]
    exact hne
  obtain ⟨p2, q2, hpass2, hs2a, hs2b, hdisj⟩ := collisionPass_pair 15 p1 q1 hne2
  have hfin : (layoutState treeB 50 rng).1 = [p2, q2] := by
    rw [hfinal1, hm, hpass1, hpass2]
  have hshape2a : shape p2
      = ⟨"repo", .folder, 10, 1, none, ["repo/a.ts"], none, 0, none⟩ :=
    (hs2a.trans hs1a).trans hsm0
  have hshape2b : shape q2
      = ⟨"repo/a.ts", .file, 5, 50, some "repo", [], none, 100, none⟩ :=
    (hs2b.trans hs1b).trans hsm1
  have hgen : generateCityLayout treeB 50 rng now
      = [cityOf p2 (now - rng ((layoutState treeB 50 rng).2)
            * (1000 * 60 * 60 * 24 * 30)),
         cityOf q2 (now - rng ((layoutState treeB 50 rng).2 + 1)
            * (1000 * 60 * 60 * 24 * 30))] := by
    unfold generateCityLayout
    rw [hfin]
    simp [exportNodes]
  refine ⟨_, _, hgen, ?_, ?_, ?_⟩
  · have h1 : p2.radius = 10 := congrArg NodeShape.radius hshape2a
    have h2 : p2.targetHeight = 1 := congrArg NodeShape.targetHeight hshape2a
    show (⟨p2.radius * 1.5, p2.targetHeight, p2.radius * 1.5⟩ : Vec3)
      = ⟨15, 1, 15⟩
    rw [h1, h2]
    norm_num
  · have h1 : q2.radius = 5 := congrArg NodeShape.radius hshape2b
    have h2 : q2.targetHeight = 50 := congrArg NodeShape.targetHeight hshape2b
    show (⟨q2.radius * 1.5, q2.targetHeight, q2.radius * 1.5⟩ : Vec3)
      = ⟨7.5, 50, 7.5⟩
    rw [h1, h2]
    norm_num
  · have hp1rad : p1.radius = 10 := by
      have h1 : p1.radius = m0.radius := congrArg NodeShape.radius hs1a
      have h2 : m0.radius = 10 := congrArg NodeShape.radius hsm0
      rw [h1, h2]
    have hq1rad : q1.radius = 5 := by
      have h1 : q1.radius = m1.radius := congrArg NodeShape.radius hs1b
      have h2 : m1.radius = 5 := congrArg NodeShape.radius hsm1
      rw [h1, h2]
    have hdd : horizDist
        (cityOf p2 (now - rng ((layoutState treeB 50 rng).2)
          * (1000 * 60 * 60 * 24 * 30))).position
        (cityOf q2 (now - rng ((layoutState treeB 50 rng).2 + 1)
          * (1000 * 60 * 60 * 24 * 30))).position
        = horizDist p2.position q2.position := by
      unfold horizDist
      refine congrArg Vec3.length ?_
      simp [cityOf, Vec3.sub, Vec3.withY]
    rw [hdd]
    rw [hp1rad, hq1rad] at hdisj
    rcases hdisj with h | h
    · left
      linarith
    · right
      exact h

theorem collisionPass_coincident (pad : ℝ) (a b : SimulationNode)
    (hab : a.id ≠ b.id)
    (h0 : ((a.position.sub b.position).withY 0).length = 0) :
    collisionPass pad [a, b] = [a, b] := by
  have hba : b.id ≠ a.id := fun h => hab h.symm
  have hzero_len : ((⟨0, 0, 0⟩ : Vec3)).length = 0 :=
    (Vec3.length_eq_zero_iff _).mpr rfl
  have hD : (a.position.sub b.position).withY 0 = ⟨0, 0, 0⟩ :=
    (Vec3.length_eq_zero_iff _).mp h0
  have hDr : (b.position.sub a.position).withY 0 = ⟨0, 0, 0⟩ := by
    rw [Vec3.rev_diff, hD]
    simp [Vec3.smul]
  rw [collisionPass_two, collideAt_self, collideAt_self,
    collideAt_01 pad a b hab]
  by_cases hlt : ((a.position.sub b.position).withY 0).length
      < a.radius + b.radius + pad
  · rw [if_pos hlt, hD, Vec3.normalize_zero, Vec3.add_smul_zero,
      Vec3.sub_smul_zero]
    show collideAt pad [a, b] 1 0 = [a, b]
    rw [collideAt_10 pad a b hba, hDr, hzero_len]
    by_cases hlt2 : (0 : ℝ) < b.radius + a.radius + pad
    · rw [if_pos (by simpa using hlt2), Vec3.normalize_zero,
        Vec3.add_smul_zero, Vec3.sub_smul_zero]
    · rw [if_neg (by simpa using hlt2)]
  · rw [if_neg hlt, collideAt_10 pad a b hba, hDr, hzero_len]
    rw [if_neg (by
      rw [h0] at hlt
      intro hcon
      exact hlt (by linarith))]

theorem velocityPhase_pairB (c : ℕ) :
    velocityPhase 15 2000 0.01 rngHalf ([cn0, bn1], c) = ([cn0, bn1], c + 4) := by
  show velRun 15 2000 0.01 rngHalf [cn0, bn1] [cn0, bn1] c = ([cn0, bn1], c + 4)
  norm_num [velRun, computeForce, List.foldl, List.find?, cn0, bn1, rngHalf,
    Vec3.add, Vec3.sub, Vec3.smul, Vec3.withY, Vec3.zero, Vec3.lengthSq,
    Vec3.length, Vec3.normalize, TIME_STEP, Real.sqrt_zero,
    (show (("repo" : String) = "repo/a.ts") = False by
      simp only [eq_iff_iff, iff_false]
      decide),
    (show (("repo/a.ts" : String) = "repo") = False by
      simp only [eq_iff_iff, iff_false]
      decide)]

theorem simIterate_pairB (c : ℕ) :
    simIterate 15 2000 0.01 rngHalf ([cn0, bn1], c) = ([cn0, bn1], c + 4) := by
  unfold simIterate
  rw [velocityPhase_pairB]
  have h0 : ((cn0.position.sub bn1.position).withY 0).length = 0 := by
    norm_num [cn0, bn1, Vec3.sub, Vec3.withY, Vec3.length, Vec3.lengthSq,
      Real.sqrt_zero]
  have hmap : ([cn0, bn1].map integrate) = [cn0, bn1] := by
    simp [integrate_singleton cn0 rfl rfl, integrate_singleton bn1 rfl rfl]
  show (collisionPass 15 (collisionPass 15 ([cn0, bn1].map integrate)), c + 4)
    = ([cn0, bn1], c + 4)
  rw [hmap, collisionPass_coincident 15 cn0 bn1 (by decide) h0,
    collisionPass_coincident 15 cn0 bn1 (by decide) h0]

theorem simLoop_pairB :
    ∀ (k c : ℕ), simLoop 15 2000 0.01 rngHalf k ([cn0, bn1], c)
      = ([cn0, bn1], c + 4 * k)
  | 0, c => by simp [simLoop]
  | k + 1, c => by
    rw [simLoop, simIterate_pairB, simLoop_pairB k (c + 4)]
    have h : c + 4 + 4 * k = c + 4 * (k + 1) := by omega
    rw [h]

theorem treeB_flatten_half :
    flattenNode rngHalf treeB none ([], 0) = ([cn0, bn1], 2) := by
  show flattenNode rngHalf
    (.mk "repo" .folder (some [.mk "a.ts" .file none (some 100) none none])
      none none none) none ([], 0) = _
  rw [flattenNode_go_some rngHalf "repo" .folder _ none none none none
    ([], 0) (by simp), flattenChildren_cons, flattenChildren_nil,
    show mkId none "repo" = "repo" from rfl]
  have hpush0 : pushNode rngHalf
      (.mk "repo" .folder
        (some [.mk "a.ts" .file none (some 100) none none]) none none none)
      none ([], 0)
      = ([freshRecord rngHalf "repo" .folder none none none none ([], 0)],
         0) := rfl
  rw [hpush0, flattenNode_go_none rngHalf "a.ts" .file (some 100) none none
    (some "repo") _ (by simp)]
  refine Prod.ext ?_ ?_
  · rw [pushNode_fst]
    norm_num [setChild, freshRecord, initialPlacement, rngHalf, mkId, cn0,
      bn1, List.find?, Vec3.add, Vec3.zero, Real.sqrt_zero,
      (show (("repo" : String) = "") = False by
        simp only [eq_iff_iff, iff_false]
        decide),
      (show ("repo" ++ "/" ++ "a.ts" : String) = "repo/a.ts" from rfl)]
    decide
  · rw [pushNode_snd]
    norm_num [initialPlacement, freshRecord, mkId, List.find?,
      (show (("repo" : String) = "") = False by
        simp only [eq_iff_iff, iff_false]
        decide)]

/-- C6 counterexample: with the degenerate stream whose every draw is 0.5,
the scenario-B child is placed exactly on the root, every force and every
collision correction is the zero vector, and after the default 50
iterations the horizontal distance between the two records is 0, not at
least `5 + 10 + 15`. -/
theorem c6_counterexample :
    ∃ c0 c1, generateCityLayout treeB 50 rngHalf 0 = [c0, c1]
      ∧ horizDist c0.position c1.position = 0
      ∧ ¬ (horizDist c0.position c1.position ≥ 5 + 10 + 15) := by
  have hlen2 : ((flattenNode rngHalf treeB none ([], 0)).1).length = 2 := by
    rw [treeB_flatten_half]
    rfl
  have hmult2 : max 1 (Real.log 2 * 0.5) = (1 : ℝ) := by
    have hl2 : Real.log 2 ≤ 1 := by
      have h := Real.log_le_sub_one_of_pos (show (0:ℝ) < 2 by norm_num)
      linarith
    have hl0 : (0:ℝ) ≤ Real.log 2 := Real.log_nonneg (by norm_num)
    apply max_eq_left
    nlinarith
  have hlayout : layoutState treeB 50 rngHalf = ([cn0, bn1], 2 + 4 * 50) := by
    simp only [layoutState]
    rw [hlen2, show ((2:ℕ):ℝ) = (2:ℝ) by norm_num, hmult2, mul_one, mul_one,
      div_one, treeB_flatten_half, simLoop_pairB]
  have hgen : generateCityLayout treeB 50 rngHalf 0
      = [cityOf cn0 (0 - rngHalf (2 + 4 * 50) * (1000 * 60 * 60 * 24 * 30)),
         cityOf bn1
           (0 - rngHalf (2 + 4 * 50 + 1) * (1000 * 60 * 60 * 24 * 30))] := by
    unfold generateCityLayout
    rw [hlayout]
    simp [exportNodes]
  have hdeq : horizDist
      (cityOf cn0
        (0 - rngHalf (2 + 4 * 50) * (1000 * 60 * 60 * 24 * 30))).position
      (cityOf bn1
        (0 - rngHalf (2 + 4 * 50 + 1)
          * (1000 * 60 * 60 * 24 * 30))).position = 0 := by
    norm_num [horizDist, cityOf, cn0, bn1, Vec3.sub, Vec3.withY, Vec3.length,
      Vec3.lengthSq, Real.sqrt_zero]
  exact ⟨_, _, hgen, hdeq, by rw [hdeq]; norm_num⟩

/-! ### The adjacency data of the flattened sequence (claim C8) -/

theorem flatPairsNode_cap (n : FileNode) (pid : Option String)
    (st : List (String × List String)) (hcap : 400 ≤ st.length) :
    flatPairsNode n pid st = st := by
  rw [flatPairsNode.eq_def]
  simp [hcap]

theorem flatPairsNode_go_none (name : String) (ty : NodeType)
    (nloc : Option ℕ) (content u : Option String) (pid : Option String)
    (st : List (String × List String)) (hcap : ¬ 400 ≤ st.length) :
    flatPairsNode (.mk name ty none nloc content u) pid st
      = regPair pid (mkId pid name) (st ++ [(mkId pid name, [])]) := by
  rw [flatPairsNode.eq_def]
  simp [hcap]

theorem flatPairsNode_go_some (name : String) (ty : NodeType)
    (cs : List FileNode) (nloc : Option ℕ) (content u : Option String)
    (pid : Option String) (st : List (String × List String))
    (hcap : ¬ 400 ≤ st.length) :
    flatPairsNode (.mk name ty (some cs) nloc content u) pid st
      = flatPairsChildren cs (mkId pid name)
          (regPair pid (mkId pid name) (st ++ [(mkId pid name, [])])) := by
  rw [flatPairsNode.eq_def]
  simp [hcap]

theorem flatPairsChildren_nilE (d : String)
    (st : List (String × List String)) :
    flatPairsChildren [] d st = st := by
  rw [flatPairsChildren.eq_def]

theorem flatPairsChildren_consE (c : FileNode) (rest : List FileNode)
    (d : String) (st : List (String × List String)) :
    flatPairsChildren (c :: rest) d st
      = flatPairsChildren rest d (flatPairsNode c (some d) st) := by
  rw [flatPairsChildren.eq_def]

theorem specNode_cap (pid : Option String) (n : FileNode) (i : ℕ)
    (hcap : 400 ≤ i) : specNode pid n i = ([], i) := by
  rw [specNode.eq_def]
  simp [hcap]

theorem specNode_go_none (name : String) (ty : NodeType) (nloc : Option ℕ)
    (content u : Option String) (pid : Option String) (i : ℕ)
    (hcap : ¬ 400 ≤ i) :
    specNode pid (.mk name ty none nloc content u) i
      = ([(mkId pid name, [])], i + 1) := by
  rw [specNode.eq_def]
  simp [hcap]

theorem specNode_go_some (name : String) (ty : NodeType)
    (cs : List FileNode) (nloc : Option ℕ) (content u : Option String)
    (pid : Option String) (i : ℕ) (hcap : ¬ 400 ≤ i) :
    specNode pid (.mk name ty (some cs) nloc content u) i
      = ((mkId pid name,
            (specChildren (mkId pid name) cs (i + 1)).2.1)
           :: (specChildren (mkId pid name) cs (i + 1)).1,
         (specChildren (mkId pid name) cs (i + 1)).2.2) := by
  rw [specNode.eq_def]
  simp [hcap]

theorem specChildren_nilE (d : String) (i : ℕ) :
    specChildren d [] i = ([], [], i) := by
  rw [specChildren.eq_def]

theorem specChildren_consE (d : String) (c : FileNode)
    (rest : List FileNode) (i : ℕ) :
    specChildren d (c :: rest) i
      = ((specNode (some d) c i).1
           ++ (specChildren d rest (specNode (some d) c i).2).1,
         (if 400 ≤ i
          then (specChildren d rest (specNode (some d) c i).2).2.1
          else mkId (some d) c.name
            :: (specChildren d rest (specNode (some d) c i).2).2.1),
         (specChildren d rest (specNode (some d) c i).2).2.2) := by
  rw [specChildren.eq_def]

theorem setChildPair_length (p k : String) :
    ∀ l : List (String × List String),
      (setChildPair p k l).length = l.length
  | [] => rfl
  | q :: qs => by
    by_cases h : q.1 = p <;>
      simp [setChildPair, h, setChildPair_length p k qs]

theorem setChildPair_append_last (p k : String)
    (q : String × List String) (hq : q.1 ≠ p) :
    ∀ l : List (String × List String),
      setChildPair p k (l ++ [q]) = setChildPair p k l ++ [q]
  | [] => by simp [setChildPair, hq]
  | r :: rs => by
    by_cases h : r.1 = p <;>
      simp [setChildPair, h, setChildPair_append_last p k q hq rs]

theorem setChildPair_skip (p k : String) :
    ∀ (pre : List (String × List String)), p ∉ pre.map Prod.fst →
      ∀ (ks : List String) (rest : List (String × List String)),
        setChildPair p k (pre ++ (p, ks) :: rest)
          = pre ++ (p, ks ++ [k]) :: rest
  | [], _, ks, rest => by simp [setChildPair]
  | q :: qs, hp, ks, rest => by
    have hq : q.1 ≠ p := by
      intro h
      exact hp (by simp [h])
    have hqs : p ∉ qs.map Prod.fst := by
      intro h
      exact hp (by simp [h])
    simp [setChildPair, hq, setChildPair_skip p k qs hqs ks rest]

theorem regPair_some_ne (p id : String) (hp : p ≠ "")
    (l : List (String × List String)) :
    regPair (some p) id l = setChildPair p id l := by
  simp [regPair, hp]

theorem pairsOf_length (ns : List SimulationNode) :
    (pairsOf ns).length = ns.length := by
  simp [pairsOf]

theorem pairsOf_setChild (p k : String) :
    ∀ ns : List SimulationNode,
      pairsOf (setChild p k ns) = setChildPair p k (pairsOf ns)
  | [] => rfl
  | n :: ns => by
    have ih := pairsOf_setChild p k ns
    simp only [pairsOf] at ih ⊢
    by_cases h : n.id = p <;> simp [setChild, setChildPair, h, ih]

theorem pairsOf_append_one (ns : List SimulationNode)
    (r : SimulationNode) :
    pairsOf (ns ++ [r]) = pairsOf ns ++ [(r.id, r.childrenIds)] := by
  simp [pairsOf]

theorem pairsOf_pushNode (rng : Rng) (name : String) (ty : NodeType)
    (ch : Option (List FileNode)) (nloc : Option ℕ)
    (content u : Option String) (pid : Option String) (st : SimSt) :
    pairsOf (pushNode rng (.mk name ty ch nloc content u) pid st).1
      = regPair pid (mkId pid name)
          (pairsOf st.1 ++ [(mkId pid name, [])]) := by
  rw [pushNode_fst]
  cases pid with
  | none => simp [pairsOf, regPair, freshRecord]
  | some p =>
    show pairsOf ((if p = "" then st.1
          else setChild p (mkId (some p) name) st.1)
        ++ [freshRecord rng name ty nloc content u (some p) st])
      = (if p = "" then pairsOf st.1 ++ [(mkId (some p) name, [])]
         else setChildPair p (mkId (some p) name)
           (pairsOf st.1 ++ [(mkId (some p) name, [])]))
    by_cases hp : p = ""
    · rw [if_pos hp, if_pos hp, pairsOf_append_one]
      simp [freshRecord]
    · rw [if_neg hp, if_neg hp,
        setChildPair_append_last p (mkId (some p) name)
          (mkId (some p) name, []) (mkId_some_ne p name hp),
        pairsOf_append_one, pairsOf_setChild]
      simp [freshRecord]

mutual

theorem pairsOf_flattenNode (rng : Rng) (n : FileNode)
    (pid : Option String) (st : SimSt) :
    pairsOf (flattenNode rng n pid st).1 = flatPairsNode n pid (pairsOf st.1) := by
  match n with
  | .mk name ty ch nloc content u =>
    have hlen : (pairsOf st.1).length = st.1.length := pairsOf_length st.1
    by_cases hcap : 400 ≤ st.1.length
    · rw [flattenNode_cap rng name ty ch nloc content u pid st hcap,
        flatPairsNode_cap _ _ _ (by rw [hlen]; exact hcap)]
    · have hcap' : ¬ 400 ≤ (pairsOf st.1).length := by rw [hlen]; exact hcap
      match ch with
      | none =>
        rw [flattenNode_go_none rng name ty nloc content u pid st hcap,
          flatPairsNode_go_none name ty nloc content u pid _ hcap',
          pairsOf_pushNode]
      | some cs =>
        rw [flattenNode_go_some rng name ty cs nloc content u pid st hcap,
          pairsOf_flattenChildren rng cs (mkId pid name) _,
          pairsOf_pushNode rng name ty (some cs) nloc content u pid st,
          flatPairsNode_go_some name ty cs nloc content u pid _ hcap']

theorem pairsOf_flattenChildren (rng : Rng) (cs : List FileNode)
    (d : String) (st : SimSt) :
    pairsOf (flattenChildren rng cs d st).1
      = flatPairsChildren cs d (pairsOf st.1) := by
  match cs with
  | [] => rw [flattenChildren_nil, flatPairsChildren_nilE]
  | c :: rest =>
    rw [flattenChildren_cons, flatPairsChildren_consE,
      pairsOf_flattenChildren rng rest d (flattenNode rng c (some d) st),
      pairsOf_flattenNode rng c (some d) st]

end

mutual

theorem specNode_ids_sub (pid : Option String) (n : FileNode) (i : ℕ) :
    ∀ q ∈ (specNode pid n i).1, q.1 ∈ preorderIdsNode pid n := by
  match n with
  | .mk name ty ch nloc content u =>
    by_cases hcap : 400 ≤ i
    · rw [specNode_cap pid _ i hcap]
      intro q hq
      simp at hq
    · match ch with
      | none =>
        rw [specNode_go_none name ty nloc content u pid i hcap]
        intro q hq
        simp only [List.mem_singleton] at hq
        subst hq
        simp [preorderIdsNode]
      | some cs =>
        rw [specNode_go_some name ty cs nloc content u pid i hcap]
        intro q hq
        simp only [List.mem_cons] at hq
        rcases hq with hq | hq
        · subst hq
          simp [preorderIdsNode]
        · have h := specChildren_ids_sub (mkId pid name) cs (i + 1) q hq
          simp [preorderIdsNode]
          exact Or.inr h

theorem specChildren_ids_sub (d : String) (cs : List FileNode) (i : ℕ) :
    ∀ q ∈ (specChildren d cs i).1, q.1 ∈ preorderIdsChildren d cs := by
  match cs with
  | [] =>
    rw [specChildren_nilE]
    intro q hq
    simp at hq
  | c :: rest =>
    rw [specChildren_consE]
    intro q hq
    simp only [List.mem_append] at hq
    rcases hq with hq | hq
    · have h := specNode_ids_sub (some d) c i q hq
      simp [preorderIdsChildren]
      exact Or.inl h
    · have h := specChildren_ids_sub d rest (specNode (some d) c i).2 q hq
      simp [preorderIdsChildren]
      exact Or.inr h

end

theorem parentsEarlier_nil : ParentsEarlier [] := by
  intro i h
  simp at h

theorem parentsEarlier_append (l : List (String × Option String))
    (s : String) (o : Option String) (hl : ParentsEarlier l)
    (ho : ∀ dd, o = some dd → dd ∈ l.map Prod.fst) :
    ParentsEarlier (l ++ [(s, o)]) := by
  intro i h p hp
  by_cases hi : i < l.length
  · have hget : (l ++ [(s, o)]).get ⟨i, h⟩ = l.get ⟨i, hi⟩ := by
      simp [List.get_eq_getElem, List.getElem_append_left hi]
    rw [hget] at hp
    have htake : (l ++ [(s, o)]).take i = l.take i := by
      rw [List.take_append_of_le_length (by omega)]
    rw [htake]
    exact hl i hi p hp
  · have hi2 : i = l.length := by
      have := h
      simp at this
      omega
    subst hi2
    have hget : (l ++ [(s, o)]).get ⟨l.length, h⟩ = (s, o) := by
      simp [List.get_eq_getElem]
    rw [hget] at hp
    have htake : (l ++ [(s, o)]).take l.length = l := by
      simp
    rw [htake]
    exact ho p hp

theorem ipPairs_setChild (p k : String) :
    ∀ ns : List SimulationNode, ipPairs (setChild p k ns) = ipPairs ns
  | [] => rfl
  | n :: ns => by
    have ih := ipPairs_setChild p k ns
    simp only [ipPairs] at ih ⊢
    by_cases h : n.id = p <;> simp [setChild, h, ih]

theorem ipPairs_pushNode (rng : Rng) (name : String) (ty : NodeType)
    (ch : Option (List FileNode)) (nloc : Option ℕ)
    (content u : Option String) (pid : Option String) (st : SimSt) :
    ipPairs (pushNode rng (.mk name ty ch nloc content u) pid st).1
      = ipPairs st.1 ++ [(mkId pid name, pid)] := by
  rw [pushNode_fst]
  cases pid with
  | none => simp [ipPairs, freshRecord]
  | some p =>
    show ipPairs ((if p = "" then st.1
          else setChild p (mkId (some p) name) st.1)
        ++ [freshRecord rng name ty nloc content u (some p) st])
      = ipPairs st.1 ++ [(mkId (some p) name, some p)]
    by_cases hp : p = ""
    · rw [if_pos hp]
      simp [ipPairs, freshRecord]
    · rw [if_neg hp]
      have h1 : ipPairs (setChild p (mkId (some p) name) st.1
          ++ [freshRecord rng name ty nloc content u (some p) st])
          = ipPairs (setChild p (mkId (some p) name) st.1)
            ++ [(mkId (some p) name, some p)] := by
        simp [ipPairs, freshRecord]
      rw [h1, ipPairs_setChild]

mutual

theorem flattenNode_parents (rng : Rng) (n : FileNode)
    (pid : Option String) (st : SimSt)
    (hpa : ParentsEarlier (ipPairs st.1))
    (hpid : ∀ dd, pid = some dd → dd ∈ (ipPairs st.1).map Prod.fst) :
    ParentsEarlier (ipPairs (flattenNode rng n pid st).1)
      ∧ ∃ tl, ipPairs (flattenNode rng n pid st).1 = ipPairs st.1 ++ tl := by
  match n with
  | .mk name ty ch nloc content u =>
    by_cases hcap : 400 ≤ st.1.length
    · rw [flattenNode_cap rng name ty ch nloc content u pid st hcap]
      exact ⟨hpa, [], by simp⟩
    · have hpush : ipPairs (pushNode rng (.mk name ty ch nloc content u)
          pid st).1 = ipPairs st.1 ++ [(mkId pid name, pid)] :=
        ipPairs_pushNode rng name ty ch nloc content u pid st
      have hpa' : ParentsEarlier (ipPairs (pushNode rng
          (.mk name ty ch nloc content u) pid st).1) := by
        rw [hpush]
        exact parentsEarlier_append _ _ _ hpa hpid
      match ch with
      | none =>
        rw [flattenNode_go_none rng name ty nloc content u pid st hcap]
        exact ⟨hpa', [(mkId pid name, pid)], hpush⟩
      | some cs =>
        rw [flattenNode_go_some rng name ty cs nloc content u pid st hcap]
        have hd : mkId pid name ∈ (ipPairs (pushNode rng
            (.mk name ty (some cs) nloc content u) pid st).1).map Prod.fst := by
          rw [hpush]
          simp
        have hrec := flattenChildren_parents rng cs (mkId pid name)
          (pushNode rng (.mk name ty (some cs) nloc content u) pid st)
          hpa' hd
        refine ⟨hrec.1, ?_⟩
        obtain ⟨tl, htl⟩ := hrec.2
        exact ⟨[(mkId pid name, pid)] ++ tl, by
          rw [htl, hpush, List.append_assoc]⟩

theorem flattenChildren_parents (rng : Rng) (cs : List FileNode)
    (d : String) (st : SimSt)
    (hpa : ParentsEarlier (ipPairs st.1))
    (hd : d ∈ (ipPairs st.1).map Prod.fst) :
    ParentsEarlier (ipPairs (flattenChildren rng cs d st).1)
      ∧ ∃ tl, ipPairs (flattenChildren rng cs d st).1
          = ipPairs st.1 ++ tl := by
  match cs with
  | [] =>
    rw [flattenChildren_nil]
    exact ⟨hpa, [], by simp⟩
  | c :: rest =>
    rw [flattenChildren_cons]
    have hpid : ∀ dd, (some d : Option String) = some dd →
        dd ∈ (ipPairs st.1).map Prod.fst := by
      intro dd hdd
      cases hdd
      exact hd
    have hc := flattenNode_parents rng c (some d) st hpa hpid
    obtain ⟨tl1, htl1⟩ := hc.2
    have hd' : d ∈ (ipPairs (flattenNode rng c (some d) st).1).map
        Prod.fst := by
      rw [htl1]
      simp only [List.map_append, List.mem_append]
      exact Or.inl hd
    have hrest := flattenChildren_parents rng rest d
      (flattenNode rng c (some d) st) hc.1 hd'
    refine ⟨hrest.1, ?_⟩
    obtain ⟨tl2, htl2⟩ := hrest.2
    exact ⟨tl1 ++ tl2, by rw [htl2, htl1, List.append_assoc]⟩

end

mutual

theorem flatPairsNode_spec (n : FileNode) (d : String) (ks : List String)
    (pre post : List (String × List String))
    (hdne : d ≠ "")
    (hdpre : d ∉ pre.map Prod.fst)
    (hnd : (preorderIdsNode (some d) n).Nodup)
    (hdisj : ∀ x ∈ preorderIdsNode (some d) n,
      x ∉ (pre ++ (d, ks) :: post).map Prod.fst) :
    flatPairsNode n (some d) (pre ++ (d, ks) :: post)
        = pre ++ (d, ks
              ++ (if 400 ≤ (pre ++ (d, ks) :: post).length then []
                  else [mkId (some d) n.name]))
            :: (post
              ++ (specNode (some d) n (pre ++ (d, ks) :: post).length).1)
      ∧ (flatPairsNode n (some d) (pre ++ (d, ks) :: post)).length
          = (specNode (some d) n (pre ++ (d, ks) :: post).length).2 := by
  match n with
  | .mk name ty ch nloc content u =>
    simp only [FileNode.name]
    by_cases hcap : 400 ≤ (pre ++ (d, ks) :: post).length
    · constructor
      · rw [flatPairsNode_cap _ _ _ hcap, if_pos hcap,
          specNode_cap (some d) _ _ hcap]
        simp
      · rw [flatPairsNode_cap _ _ _ hcap, specNode_cap (some d) _ _ hcap]
    · match ch with
      | none =>
        have h1 : (pre ++ (d, ks) :: post)
              ++ [(mkId (some d) name, ([] : List String))]
            = pre ++ (d, ks) :: (post ++ [(mkId (some d) name, [])]) := by
          simp
        constructor
        · rw [flatPairsNode_go_none name ty nloc content u (some d) _ hcap,
            regPair_some_ne d (mkId (some d) name) hdne _,
            h1, setChildPair_skip d (mkId (some d) name) pre hdpre ks
              (post ++ [(mkId (some d) name, [])]),
            if_neg hcap,
            specNode_go_none name ty nloc content u (some d) _ hcap]
        · rw [flatPairsNode_go_none name ty nloc content u (some d) _ hcap,
            regPair_some_ne d (mkId (some d) name) hdne _,
            setChildPair_length,
            specNode_go_none name ty nloc content u (some d) _ hcap]
          simp
          omega
      | some cs =>
        have hidst : mkId (some d) name
            ∉ (pre ++ (d, ks) :: post).map Prod.fst :=
          hdisj _ (by simp [preorderIdsNode])
        have hnd2 : (mkId (some d) name
              :: preorderIdsChildren (mkId (some d) name) cs).Nodup := by
          simpa [preorderIdsNode] using hnd
        have hndc : (preorderIdsChildren (mkId (some d) name) cs).Nodup :=
          (List.nodup_cons.mp hnd2).2
        have hidnot : mkId (some d) name
            ∉ preorderIdsChildren (mkId (some d) name) cs :=
          (List.nodup_cons.mp hnd2).1
        have hset : regPair (some d) (mkId (some d) name)
            ((pre ++ (d, ks) :: post) ++ [(mkId (some d) name, [])])
            = (pre ++ (d, ks ++ [mkId (some d) name]) :: post)
              ++ (mkId (some d) name, ([] : List String)) :: [] := by
          rw [regPair_some_ne d (mkId (some d) name) hdne _,
            show (pre ++ (d, ks) :: post)
                ++ [(mkId (some d) name, ([] : List String))]
              = pre ++ (d, ks) :: (post ++ [(mkId (some d) name, [])])
              by simp,
            setChildPair_skip d (mkId (some d) name) pre hdpre ks
              (post ++ [(mkId (some d) name, [])])]
          simp
        have hdpre2 : mkId (some d) name
            ∉ (pre ++ (d, ks ++ [mkId (some d) name]) :: post).map
                Prod.fst := by
          intro hmem
          apply hidst
          simp only [List.map_append, List.map_cons, List.mem_append,
            List.mem_cons] at hmem ⊢
          tauto
        have hdisj2 : ∀ x ∈ preorderIdsChildren (mkId (some d) name) cs,
            x ∉ ((pre ++ (d, ks ++ [mkId (some d) name]) :: post)
              ++ (mkId (some d) name, ([] : List String)) :: []).map
                Prod.fst := by
          intro x hx
          have hx1 : x ∈ preorderIdsNode (some d)
              (.mk name ty (some cs) nloc content u) := by
            simp [preorderIdsNode]
            exact Or.inr hx
          have h2 := hdisj x hx1
          have hxid : x ≠ mkId (some d) name := fun he => hidnot (he ▸ hx)
          simp only [List.map_append, List.map_cons, List.map_nil,
            List.mem_append, List.mem_cons, List.mem_singleton,
            List.not_mem_nil] at h2 ⊢
          tauto
        have hrec := flatPairsChildren_spec cs (mkId (some d) name) []
          (pre ++ (d, ks ++ [mkId (some d) name]) :: post) []
          (mkId_ne_empty d name hdne) hdpre2 hndc hdisj2
        have hL : ((pre ++ (d, ks ++ [mkId (some d) name]) :: post)
            ++ (mkId (some d) name, ([] : List String)) :: []).length
            = (pre ++ (d, ks) :: post).length + 1 := by
          simp only [List.length_append, List.length_cons,
            List.length_nil]
        rw [hL] at hrec
        constructor
        · rw [flatPairsNode_go_some name ty cs nloc content u (some d) _
              hcap,
            hset, hrec.1, if_neg hcap,
            specNode_go_some name ty cs nloc content u (some d) _ hcap]
          simp
        · rw [flatPairsNode_go_some name ty cs nloc content u (some d) _
              hcap,
            hset, hrec.2,
            specNode_go_some name ty cs nloc content u (some d) _ hcap]

theorem flatPairsChildren_spec (cs : List FileNode) (d : String)
    (ks : List String) (pre post : List (String × List String))
    (hdne : d ≠ "")
    (hdpre : d ∉ pre.map Prod.fst)
    (hnd : (preorderIdsChildren d cs).Nodup)
    (hdisj : ∀ x ∈ preorderIdsChildren d cs,
      x ∉ (pre ++ (d, ks) :: post).map Prod.fst) :
    flatPairsChildren cs d (pre ++ (d, ks) :: post)
        = pre ++ (d, ks
              ++ (specChildren d cs (pre ++ (d, ks) :: post).length).2.1)
            :: (post
              ++ (specChildren d cs (pre ++ (d, ks) :: post).length).1)
      ∧ (flatPairsChildren cs d (pre ++ (d, ks) :: post)).length
          = (specChildren d cs (pre ++ (d, ks) :: post).length).2.2 := by
  match cs with
  | [] =>
    constructor
    · rw [flatPairsChildren_nilE, specChildren_nilE]
      simp
    · rw [flatPairsChildren_nilE, specChildren_nilE]
  | c :: rest =>
    have hpre1 : preorderIdsChildren d (c :: rest)
        = preorderIdsNode (some d) c ++ preorderIdsChildren d rest := by
      rw [preorderIdsChildren]
    rw [hpre1] at hnd hdisj
    have hndc : (preorderIdsNode (some d) c).Nodup := hnd.of_append_left
    have hndr : (preorderIdsChildren d rest).Nodup := hnd.of_append_right
    have hdisjoint : List.Disjoint (preorderIdsNode (some d) c)
        (preorderIdsChildren d rest) := List.disjoint_of_nodup_append hnd
    have hdisjc : ∀ x ∈ preorderIdsNode (some d) c,
        x ∉ (pre ++ (d, ks) :: post).map Prod.fst := by
      intro x hx
      exact hdisj x (List.mem_append.mpr (Or.inl hx))
    by_cases hcap : 400 ≤ (pre ++ (d, ks) :: post).length
    · have hcapn : 400 ≤ pre.length + (post.length + 1) := by
        have h := hcap
        simp only [List.length_append, List.length_cons] at h
        exact h
      have hceq : flatPairsNode c (some d) (pre ++ (d, ks) :: post)
          = pre ++ (d, ks) :: post :=
        flatPairsNode_cap c (some d) _ hcap
      have hspecc : specNode (some d) c (pre ++ (d, ks) :: post).length
          = ([], (pre ++ (d, ks) :: post).length) :=
        specNode_cap (some d) c _ hcap
      have hrest := flatPairsChildren_spec rest d ks pre post hdne hdpre
        hndr (fun x hx => hdisj x (List.mem_append.mpr (Or.inr hx)))
      constructor
      · rw [flatPairsChildren_consE, hceq, hrest.1, specChildren_consE,
          hspecc]
        simp [hcapn]
      · rw [flatPairsChildren_consE, hceq, hrest.2, specChildren_consE,
          hspecc]
    · have hcapn : ¬ 400 ≤ pre.length + (post.length + 1) := by
        have h := hcap
        simp only [List.length_append, List.length_cons] at h
        exact h
      have hc := flatPairsNode_spec c d ks pre post hdne hdpre hndc hdisjc
      have hceq := hc.1
      rw [if_neg hcap] at hceq
      have hclen := hc.2
      have hL : (pre ++ (d, ks ++ [mkId (some d) c.name])
          :: (post ++ (specNode (some d) c
            (pre ++ (d, ks) :: post).length).1)).length
          = (specNode (some d) c (pre ++ (d, ks) :: post).length).2 := by
        rw [← hceq]
        exact hclen
      have hdisjr : ∀ x ∈ preorderIdsChildren d rest,
          x ∉ (pre ++ (d, ks ++ [mkId (some d) c.name])
            :: (post ++ (specNode (some d) c
              (pre ++ (d, ks) :: post).length).1)).map Prod.fst := by
        intro x hx
        have h1 := hdisj x (List.mem_append.mpr (Or.inr hx))
        have hnotrc : x ∉ ((specNode (some d) c
            (pre ++ (d, ks) :: post).length).1).map Prod.fst := by
          intro hxm
          obtain ⟨q, hq, hqx⟩ := List.mem_map.mp hxm
          have hqp := specNode_ids_sub (some d) c _ q hq
          exact hdisjoint (hqx ▸ hqp) hx
        simp only [List.map_append, List.map_cons, List.mem_append,
          List.mem_cons] at h1 hnotrc ⊢
        tauto
      have hrest := flatPairsChildren_spec rest d
        (ks ++ [mkId (some d) c.name]) pre
        (post ++ (specNode (some d) c (pre ++ (d, ks) :: post).length).1)
        hdne hdpre hndr hdisjr
      rw [hL] at hrest
      constructor
      · rw [flatPairsChildren_consE, hceq, hrest.1, specChildren_consE]
        simp [hcapn]
      · rw [flatPairsChildren_consE, hceq, hrest.2, specChildren_consE]

end

/-- C8 counterexample: with two sibling folders both named `a` under root
`r`, the two records share the derived id `r/a`, and `nodes.find` resolves
the parent lookup of `r/a/b` to the first of them — a record whose tree
node has no children — so the flattened `(id, childrenIds)` sequence
disagrees with the input's parent/child structure. -/
theorem c8_counterexample :
    pairsOf (flattenNode rngHalf treeDup none ([], 0)).1
        = [("r", ["r/a", "r/a"]), ("r/a", ["r/a/b"]), ("r/a", []),
           ("r/a/b", [])]
      ∧ (specNode none treeDup 0).1
          = [("r", ["r/a", "r/a"]), ("r/a", []), ("r/a", ["r/a/b"]),
             ("r/a/b", [])]
      ∧ pairsOf (flattenNode rngHalf treeDup none ([], 0)).1
          ≠ (specNode none treeDup 0).1 := by
  refine ⟨?_, by decide, ?_⟩
  · rw [pairsOf_flattenNode]
    decide
  · rw [pairsOf_flattenNode]
    decide

/-- C8 (amended: assuming all derived ids of the input tree are distinct
and the root's name is nonempty, so that no parent id is the falsy empty
string): in the flattened record sequence, every record's `parentId`, when
present, is the id of a record that occurs strictly earlier in the
sequence, and the `(id, childrenIds)` sequence equals the specification
adjacency — records in depth-first preorder, each record admitted exactly
when fewer than 400 records exist at its visit, and each record's
`childrenIds` listing exactly the ids of its admitted children in input
order, also when the cap truncates the traversal. -/
theorem c8_adjacency (rng : Rng) (root : FileNode)
    (hnd : (preorderIdsNode none root).Nodup)
    (hne : FileNode.name root ≠ "") :
    ParentsEarlier (ipPairs (flattenNode rng root none ([], 0)).1)
      ∧ pairsOf (flattenNode rng root none ([], 0)).1
          = (specNode none root 0).1 := by
  constructor
  · exact (flattenNode_parents rng root none ([], 0) parentsEarlier_nil
      (fun dd hdd => Option.noConfusion hdd)).1
  · rw [pairsOf_flattenNode]
    show flatPairsNode root none [] = (specNode none root 0).1
    match root, hnd, hne with
    | .mk name ty ch nloc content u, hnd, hne =>
      have hname : name ≠ "" := by
        simpa [FileNode.name] using hne
      have hcap : ¬ 400 ≤ ([] : List (String × List String)).length := by
        simp
      match ch, hnd with
      | none, hnd =>
        rw [flatPairsNode_go_none name ty nloc content u none _ hcap,
          specNode_go_none name ty nloc content u none 0 (by norm_num)]
        simp [regPair]
      | some cs, hnd =>
        have hnd2 : (mkId none name
              :: preorderIdsChildren (mkId none name) cs).Nodup := by
          simpa [preorderIdsNode] using hnd
        have hndc : (preorderIdsChildren (mkId none name) cs).Nodup :=
          (List.nodup_cons.mp hnd2).2
        have hidnot : mkId none name
            ∉ preorderIdsChildren (mkId none name) cs :=
          (List.nodup_cons.mp hnd2).1
        have hdisj : ∀ x ∈ preorderIdsChildren (mkId none name) cs,
            x ∉ (([] : List (String × List String))
              ++ (mkId none name, ([] : List String)) :: []).map
                Prod.fst := by
          intro x hx
          have hxid : x ≠ mkId none name := fun he => hidnot (he ▸ hx)
          simp [hxid]
        have hrec := flatPairsChildren_spec cs (mkId none name) [] [] []
          (by simpa [mkId] using hname) (by simp) hndc hdisj
        have hL : (([] : List (String × List String))
            ++ (mkId none name, ([] : List String)) :: []).length = 1 := by
          simp
        rw [hL] at hrec
        rw [flatPairsNode_go_some name ty cs nloc content u none _ hcap]
        have hst : regPair none (mkId none name)
            (([] : List (String × List String))
              ++ [(mkId none name, [])])
            = ([] : List (String × List String))
              ++ (mkId none name, ([] : List String)) :: [] := by
          simp [regPair]
        rw [hst, hrec.1,
          specNode_go_some name ty cs nloc content u none 0 (by norm_num)]
        simp

/-- Witness for the amended C8 statement at the duplicate-free input
`treeW` (whose root name `r` is nonempty) and the degenerate stream. -/
theorem c8_adjacency_witness :
    ((preorderIdsNode none treeW).Nodup ∧ FileNode.name treeW ≠ "")
      ∧ (ParentsEarlier (ipPairs (flattenNode rngHalf treeW none ([], 0)).1)
         ∧ pairsOf (flattenNode rngHalf treeW none ([], 0)).1
             = (specNode none treeW 0).1) :=
  ⟨⟨by decide, by decide⟩,
   c8_adjacency rngHalf treeW (by decide) (by decide)⟩
